import Mathlib

/-!
# Sheller: a shallow embedding of `sheller.c`

The shell reads a line, splits it into tokens (`parse_command`), and hands the
argument vector to `execute_command`, which first tries the built-in
dispatcher (`handle_builtin_commands`) and otherwise spawns a program.

Conventions of the embedding.

* A C string is the list of its `char`s before the terminating NUL
  (`Str`).  One list element is one byte.
* The global array `presets[MAX_PRESETS]` is a list of slots, each slot holding
  the two C strings found in its `name` and `prompt` buffers; `preset_count`
  is kept next to it.  Slots at index `preset_count` and beyond keep whatever
  was last written there, as in C.
* Everything the operating system decides during one command (can the
  configuration files be opened, what do `fork` and `waitpid` answer, which
  byte lies in front of a heap buffer, what a byte written behind one does) is
  gathered in `World`.  The working
  directory lives in the operating system and is not part of the state: `cd`
  returns 1 whether `chdir` succeeds or not.
* Allocation (`malloc`, `strdup`) is assumed to succeed.  The one write that
  goes past the end of an allocated block (the `sprintf` into `spaced_prompt`)
  has one of the effects listed in `Overrun`, chosen by the `World`.
* Output to the terminal (`printf`, `fprintf(stderr, ..)`, `perror`) is not
  modelled.
-/

namespace Sheller

/-- A C string: the characters before the terminating NUL. -/
abbrev Str := List Char

def MAX_ARGS : Nat := 64
def MAX_PROMPT_LENGTH : Nat := 256
def MAX_PRESETS : Nat := 50

/-- The double-quote character. -/
def DQUOTE : Char := Char.ofNat 34

/-- The newline character. -/
def NEWLINE : Char := Char.ofNat 10

/-- The `=` character that separates name and text in the presets file. -/
def EQUALS : Char := Char.ofNat 61

/-- The NUL character (string terminator). -/
def NUL : Char := Char.ofNat 0

/-- Library `isspace` in the "C" locale: space, `\t`, `\n`, `\v`, `\f`, `\r`. -/
def isspace (c : Char) : Bool :=
  c.toNat = 32 || (9 ≤ c.toNat && c.toNat ≤ 13)

/-- The struct `PromptPreset` with its buffers `char name[64]` and
`char prompt[MAX_PROMPT_LENGTH]`, each buffer read as a C string. -/
structure PromptPreset where
  name : Str
  prompt : Str
deriving DecidableEq, Repr, Inhabited

/-- A zero-initialised slot of the static array. -/
def PromptPreset.zero : PromptPreset := ⟨[], []⟩

/-- Library `strncpy(dst, src, n)` into a buffer of `n + 1` bytes whose last
byte is 0 (the buffers are in zero-initialised static storage and the program
only ever stores a terminating NUL in their last byte): exactly `n` bytes are
written, the source followed by NUL padding, so the destination afterwards
reads as the first `n` characters of the source whatever it held before. -/
def strncpy (src : Str) (n : Nat) : Str := src.take n

/-- One call of library `strtok` with a single delimiter character, on the
text that starts at the scan position: leading delimiters are skipped; if
nothing is left there is no token; otherwise the token runs up to the next
delimiter (or the end), and the saved position is just past that delimiter.
Returns the token and the text at the saved position. -/
def strtok (s : Str) (delim : Char) : Option (Str × Str) :=
  match s.dropWhile (fun c => c == delim) with
  | [] => none
  | c :: cs =>
    some ((c :: cs).takeWhile (fun x => x != delim),
          ((c :: cs).dropWhile (fun x => x != delim)).drop 1)

/-- The `while (*input)` loop of `parse_quoted_string`; the result is what has
been stored through `write` from this point on. -/
def parse_quoted_loop : Bool → Str → Str
  | _, [] => []
  | in_quotes, c :: input =>
    if c = DQUOTE then parse_quoted_loop (!in_quotes) input
    else if !in_quotes && isspace c then []
    else c :: parse_quoted_loop in_quotes input

/-- Function `char* parse_quoted_string(char* input)`. -/
def parse_quoted_string (input : Str) : Str :=
  parse_quoted_loop false input

/-- The `while (token != NULL && *arg_count < MAX_ARGS - 1)` loop of
`parse_command`.  `free` is `MAX_ARGS - 1 - *arg_count`; `token` is the result
of the latest `strtok` call together with the text at its saved position.
Returns the tokens stored in `args` from this point on. -/
def parse_command_loop : Nat → Option (Str × Str) → List Str
  | 0, _ => []
  | _ + 1, none => []
  | free + 1, some (token, rest) =>
    token :: parse_command_loop free (strtok rest ' ')

/-- Function `char** parse_command(char* command, int* arg_count)`: the initialised
part of the 64-slot vector (`none` is the NULL pointer) and `*arg_count`. -/
def parse_command (command : Str) : List (Option Str) × Nat :=
  let tokens := parse_command_loop (MAX_ARGS - 1) (strtok command ' ')
  (tokens.map some ++ [none], tokens.length)

/-! ## Shell state and the outside world -/

/-- The program state one command can read and change: the globals `presets`
and `preset_count`, the string `*prompt` owned by `main`, and the contents of
the two configuration files (`none`: the file does not exist). -/
structure Shell where
  presets : List PromptPreset
  preset_count : Nat
  prompt : Str
  presets_file : Option (List Char)
  last_prompt_file : Option (List Char)
deriving DecidableEq, Repr

/-- Decoded result of one `waitpid(pid, &status, WUNTRACED)` call. -/
inductive WaitStatus where
  | exited (code : Nat)
  | signaled (sig : Nat)
  | stopped (sig : Nat)
deriving DecidableEq, Repr

/-- Library macro `WIFEXITED`. -/
def WIFEXITED : WaitStatus → Bool
  | .exited _ => true
  | _ => false

/-- Library macro `WIFSIGNALED`. -/
def WIFSIGNALED : WaitStatus → Bool
  | .signaled _ => true
  | _ => false

/-- What becomes of the byte that `sprintf(spaced_prompt, "%s > ", *prompt)` stores
behind the end of its buffer: the buffer has `strlen(*prompt) + 3` bytes and
`strlen(*prompt) + 4` are written, so the terminating NUL lands on whatever the
allocator keeps behind the block. -/
inductive Overrun where
  /-- The byte is spare room (the allocator rounded the request up): the string
  reads as it was written. -/
  | spare
  /-- The byte belongs to the allocator, which writes it again: the string has
  lost its terminating NUL and reads on through `tail`. -/
  | lost (tail : Str)
  /-- The allocator finds its data damaged in the `free(*prompt)` that follows
  and aborts the process. -/
  | fatal
deriving DecidableEq, Repr

/-- What the operating system answers while one command runs. -/
structure World where
  /-- Whether `get_config_path(PRESETS_FILE)` and `fopen(.., "w")` both succeed. -/
  presets_writable : Bool
  /-- Whether `get_config_path(LAST_PROMPT_FILE)` and `fopen(.., "w")` both succeed. -/
  last_prompt_writable : Bool
  /-- The byte stored just in front of the buffer that `parse_quoted_string`
  returns; `(*prompt)[strlen(*prompt) - 1]` reads it when the string is empty. -/
  byte_before : Char
  /-- The effect of the byte written behind the end of `spaced_prompt`. -/
  overrun : Overrun
  /-- Return value of `fork`. -/
  fork_result : Int
  /-- The statuses that successive `waitpid` calls report; when the list runs
  out the child never changes state again and `waitpid` blocks for ever. -/
  wait_results : List WaitStatus
deriving Repr

/-- Array read `presets[i]`. -/
def slot (presets : List PromptPreset) (i : Nat) : PromptPreset :=
  presets.getD i PromptPreset.zero

/-- Argument read `args[i]`; `none` is the NULL pointer. -/
def arg (args : List (Option Str)) (i : Nat) : Option Str :=
  args.getD i none

/-- The argument vector that holds the given tokens followed by NULL. -/
def argv (tokens : List Str) : List (Option Str) :=
  tokens.map some ++ [none]

/-- Function `void save_last_prompt(const char* prompt)`. -/
def save_last_prompt (w : World) (prompt : Str) (s : Shell) : Shell :=
  if w.last_prompt_writable then { s with last_prompt_file := some prompt } else s

/-- Bytes read by one `fgets` call that may still store `room` characters:
reading stops after a newline, at end of file, or when the room is used up.
Returns the characters stored and the unread rest of the file. -/
def fgets_read : Nat → List Char → List Char × List Char
  | 0, file => ([], file)
  | _ + 1, [] => ([], [])
  | room + 1, c :: file =>
    if c = NEWLINE then ([c], file)
    else ((c :: (fgets_read room file).1), (fgets_read room file).2)

/-- Library `fgets(buf, size, fp)`: `none` (NULL) at end of file, otherwise the
bytes stored in front of the terminating NUL and the unread rest. -/
def fgets (size : Nat) (file : List Char) : Option (List Char × List Char) :=
  match file with
  | [] => none
  | _ :: _ => some (fgets_read (size - 1) file)

/-- The C string held by a buffer: its bytes up to the first NUL. -/
def cstr (buf : List Char) : Str :=
  buf.takeWhile (fun c => c != NUL)

/-- Function `char* load_last_prompt(void)`; `none` is NULL. -/
def load_last_prompt (file : Option (List Char)) : Option Str :=
  match file with
  | none => none
  | some contents =>
    match fgets MAX_PROMPT_LENGTH contents with
    | none => none
    | some (buf, _) =>
      let prompt := cstr buf
      if prompt.getLast? = some NEWLINE then some prompt.dropLast else some prompt

/-- The `while (fgets(..) && preset_count < MAX_PRESETS)` loop of `load_presets`
on the unread part of the file.  Every `fgets` that succeeds consumes at least
one byte, so `fuel` = number of unread bytes is never used up before the loop
ends by itself. -/
def load_presets_loop :
    Nat → List Char → List PromptPreset → Nat → List PromptPreset × Nat
  | 0, _, presets, preset_count => (presets, preset_count)
  | fuel + 1, file, presets, preset_count =>
    match fgets (MAX_PROMPT_LENGTH + 64) file with
    | none => (presets, preset_count)
    | some (buf, rest) =>
      if preset_count < MAX_PRESETS then
        match strtok (cstr buf) EQUALS with
        | none => load_presets_loop fuel rest presets preset_count
        | some (name, after) =>
          match strtok after NEWLINE with
          | none => load_presets_loop fuel rest presets preset_count
          | some (prompt, _) =>
            load_presets_loop fuel rest
              (presets.set preset_count
                ⟨strncpy name 63, strncpy prompt (MAX_PROMPT_LENGTH - 1)⟩)
              (preset_count + 1)
      else (presets, preset_count)

/-- Function `void load_presets(void)`. -/
def load_presets (s : Shell) : Shell :=
  match s.presets_file with
  | none => s
  | some contents =>
    let r := load_presets_loop contents.length contents s.presets s.preset_count
    { s with presets := r.1, preset_count := r.2 }

/-- The `for` loop of `save_presets` from index `i` on, `todo` iterations:
the bytes `fprintf(fp, "%s=%s\n", ..)` writes. -/
def save_presets_loop (presets : List PromptPreset) : Nat → Nat → List Char
  | _, 0 => []
  | i, todo + 1 =>
    (slot presets i).name ++ [EQUALS] ++ (slot presets i).prompt ++ [NEWLINE]
      ++ save_presets_loop presets (i + 1) todo

/-- Function `void save_presets(void)`. -/
def save_presets (w : World) (s : Shell) : Shell :=
  if w.presets_writable then
    { s with presets_file := some (save_presets_loop s.presets 0 s.preset_count) }
  else s

/-- The search loops `for (i = 0; i < preset_count; i++) if (strcmp(presets[i].name,
name) == 0) ..` from index `i` on, `todo` iterations: the first matching index. -/
def find_preset (presets : List PromptPreset) (name : Str) : Nat → Nat → Option Nat
  | _, 0 => none
  | i, todo + 1 =>
    if (slot presets i).name = name then some i
    else find_preset presets name (i + 1) todo

/-- The inner loop of `prompt delete`, `for (j = i; j < preset_count - 1; j++)`,
from index `j` on, `todo` iterations: both strings of slot `j + 1` are copied
into slot `j`. -/
def shift_presets (presets : List PromptPreset) : Nat → Nat → List PromptPreset
  | _, 0 => presets
  | j, todo + 1 =>
    shift_presets
      (presets.set j ⟨(slot presets (j + 1)).name, (slot presets (j + 1)).prompt⟩)
      (j + 1) todo

/-- Function `int handle_builtin_commands(char** args, char** prompt)`: the value
returned (`none`: the process is aborted inside the call) and the state
afterwards. -/
def handle_builtin_commands (w : World) (args : List (Option Str)) (s : Shell) :
    Option Int × Shell :=
  if arg args 0 = some "exit".toList then (some 0, s)
  else if arg args 0 = some "cd".toList then (some 1, s)
  else if arg args 0 = some "prompt".toList then
    match arg args 1 with
    | none => (some 1, s)
    | some a1 =>
      if a1 = "save".toList then
        match arg args 2, arg args 3 with
        | some a2, some a3 =>
          match find_preset s.presets a2 0 s.preset_count with
          | some _ => (some 1, s)
          | none =>
            if s.preset_count ≥ MAX_PRESETS then (some 1, s)
            else
              let new_prompt := parse_quoted_string a3
              (some 1, save_presets w
                { s with
                  presets := s.presets.set s.preset_count
                    ⟨strncpy a2 63, strncpy new_prompt (MAX_PROMPT_LENGTH - 1)⟩
                  preset_count := s.preset_count + 1 })
        | _, _ => (some 1, s)
      else if a1 = "delete".toList then
        match arg args 2 with
        | none => (some 1, s)
        | some a2 =>
          match find_preset s.presets a2 0 s.preset_count with
          | some i =>
            (some 1, save_presets w
              { s with
                presets := shift_presets s.presets i (s.preset_count - 1 - i)
                preset_count := s.preset_count - 1 })
          | none => (some 1, s)
      else if a1 = "load".toList then
        match arg args 2 with
        | none => (some 1, s)
        | some a2 =>
          match find_preset s.presets a2 0 s.preset_count with
          | some i =>
            (some 1, save_last_prompt w (slot s.presets i).prompt
              { s with prompt := (slot s.presets i).prompt })
          | none => (some 1, s)
      else if a1 = "list".toList then (some 1, s)
      else
        let new_prompt := parse_quoted_string a1
        let last := match new_prompt.getLast? with
          | some c => c
          | none => w.byte_before
        if last ≠ ' ' then
          match w.overrun with
          | .spare =>
            (some 1, save_last_prompt w (new_prompt ++ " > ".toList)
              { s with prompt := new_prompt ++ " > ".toList })
          | .lost tail =>
            (some 1, save_last_prompt w (new_prompt ++ " > ".toList ++ tail)
              { s with prompt := new_prompt ++ " > ".toList ++ tail })
          | .fatal => (none, { s with prompt := new_prompt })
        else (some 1, save_last_prompt w new_prompt { s with prompt := new_prompt })
  else (some (-1), s)

/-- The `do waitpid(..) while (!WIFEXITED(status) && !WIFSIGNALED(status))` loop:
`true` when it ends, `false` when `waitpid` blocks for ever. -/
def wait_loop : List WaitStatus → Bool
  | [] => false
  | status :: later =>
    if !WIFEXITED status && !WIFSIGNALED status then wait_loop later else true

/-- Function `int execute_command(char** args, int arg_count, char** prompt)`: the value
returned to the caller in `main` (`none`: this process never returns from the
call: it was aborted inside the dispatcher, or it is the forked child, which is
replaced by `execvp` or exits, or it is the parent blocked in `waitpid` for
ever) and the state afterwards. -/
def execute_command (w : World) (args : List (Option Str)) (arg_count : Nat)
    (s : Shell) : Option Int × Shell :=
  if arg_count = 0 then (some 1, s)
  else
    let r := handle_builtin_commands w args s
    match r.1 with
    | none => (none, r.2)
    | some builtin_result =>
      if builtin_result ≥ 0 then (some builtin_result, r.2)
      else if w.fork_result = 0 then (none, r.2)
      else if w.fork_result < 0 then (some 1, r.2)
      else if wait_loop w.wait_results then (some 1, r.2)
      else (none, r.2)

/-- The body of the loop in `main` for a line that was read: tokenize, execute,
then `save_last_prompt(prompt)`; nothing follows when the call does not return. -/
def main_step (w : World) (command : Str) (s : Shell) : Option Int × Shell :=
  let r := execute_command w (parse_command command).1 (parse_command command).2 s
  match r.1 with
  | none => (none, r.2)
  | some status => (some status, save_last_prompt w r.2.prompt r.2)

/-- The state at program start: zero-initialised globals, the files as found. -/
def Shell.initial (presets_file last_prompt_file : Option (List Char)) : Shell :=
  { presets := List.replicate MAX_PRESETS PromptPreset.zero
    preset_count := 0
    prompt := []
    presets_file := presets_file
    last_prompt_file := last_prompt_file }

/-- The string literal used by `main` when no prompt was saved (UTF-8 bytes). -/
def default_prompt : Str :=
  [Char.ofNat 0xE6, Char.ofNat 0x84, Char.ofNat 0x9B, '>', ' ']

/-- The start of `main` up to the loop: `load_presets()`, then
`load_last_prompt()` with the default prompt as fall-back. -/
def startup (presets_file last_prompt_file : Option (List Char)) : Shell :=
  let s := load_presets (Shell.initial presets_file last_prompt_file)
  { s with prompt := (load_last_prompt last_prompt_file).getD default_prompt }

/-- A sequence of calls of the dispatcher, each with its own argument vector and
its own answers from the operating system; the sequence ends where a call
aborts the process. -/
def run_commands (s : Shell) : List (World × List (Option Str)) → Shell
  | [] => s
  | (w, args) :: later =>
    match (handle_builtin_commands w args s).1 with
    | none => (handle_builtin_commands w args s).2
    | some _ => run_commands (handle_builtin_commands w args s).2 later

/-- The presets the store holds: the first `preset_count` slots, as
(name, text) pairs in store order. -/
def store (s : Shell) : List (Str × Str) :=
  (s.presets.take s.preset_count).map (fun p => (p.name, p.prompt))

/-- The array has its `MAX_PRESETS` slots and the count is within it. -/
def Shell.wf (s : Shell) : Prop :=
  s.presets.length = MAX_PRESETS ∧ s.preset_count ≤ MAX_PRESETS

instance (s : Shell) : Decidable s.wf := by
  unfold Shell.wf; exact inferInstance

/-! ## Reference definitions and sample inputs -/

/-- Reference for the tokenizer, following the specification: the line split at
every space character, empty pieces dropped. -/
def words (line : Str) : List Str :=
  (line.splitOn ' ').filter (fun piece => !piece.isEmpty)

/-- Modes of the reference scanner of the specification; `stopped` once an
unquoted whitespace character has been met. -/
inductive ScanMode where
  | unquoted
  | quoted
  | stopped
deriving DecidableEq, Repr

/-- One character of the reference scan: a double quote toggles the mode and is
dropped, unquoted whitespace stops the scan, any other character is appended
to the output. -/
def scan_step (st : ScanMode × Str) (c : Char) : ScanMode × Str :=
  match st.1 with
  | .stopped => st
  | .unquoted =>
    if c = DQUOTE then (.quoted, st.2)
    else if isspace c then (.stopped, st.2)
    else (.unquoted, st.2 ++ [c])
  | .quoted =>
    if c = DQUOTE then (.unquoted, st.2)
    else (.quoted, st.2 ++ [c])

/-- Reference two-state scan of the specification, started unquoted with empty
output. -/
def reference_scan (s : Str) : Str :=
  (s.foldl scan_step (.unquoted, [])).2

/-- Reference for deletion, following the specification: the sequence without
its first entry named `n`, everything else kept in place. -/
def remove_first_named (n : Str) : List (Str × Str) → List (Str × Str)
  | [] => []
  | e :: es => if e.1 = n then es else e :: remove_first_named n es

/-- A world in which the files can be written, the byte written behind
`spaced_prompt` does no harm, and a spawned child exits at once with status 0. -/
def calm : World :=
  { presets_writable := true
    last_prompt_writable := true
    byte_before := NUL
    overrun := .spare
    fork_result := 1
    wait_results := [.exited 0] }

/-- The token `"foo"`, double quotes included. -/
def quoted_foo : Str := DQUOTE :: "foo".toList ++ [DQUOTE]

/-- The token `"foo "`, double quotes and trailing space included. -/
def quoted_foo_space : Str := DQUOTE :: "foo ".toList ++ [DQUOTE]

/-- A name of 64 bytes. -/
def long_name : Str := List.replicate 64 'a'

/-- The names held in the store are pairwise distinct. -/
def names_distinct (s : Shell) : Prop :=
  ((store s).map Prod.fst).Nodup

/-- Every command of the sequence whose third token is present gives there a
name of at most 63 bytes (one that fits the `name` buffer without being cut). -/
def names_fit (cmds : List (World × List (Option Str))) : Prop :=
  ∀ c ∈ cmds, ∀ n, arg c.2 2 = some n → n.length ≤ 63

/-- The state after saving the presets `a`, `b`, `c`, in this order, into the
empty store. -/
def three_presets : Shell :=
  run_commands (Shell.initial none none)
    [(calm, argv ["prompt".toList, "save".toList, "a".toList, "x".toList]),
     (calm, argv ["prompt".toList, "save".toList, "b".toList, "y".toList]),
     (calm, argv ["prompt".toList, "save".toList, "c".toList, "z".toList])]

/-- A state whose 50 slots are all in use, as after loading a presets file of
50 lines `a=x`. -/
def full_store : Shell :=
  { presets := List.replicate MAX_PRESETS ⟨"a".toList, "x".toList⟩
    preset_count := MAX_PRESETS
    prompt := default_prompt
    presets_file := none
    last_prompt_file := none }

/-- The line `prompt save work "me@host $ "` of the end-to-end scenario. -/
def quoted_line : Str :=
  "prompt save work ".toList ++ [DQUOTE] ++ "me@host $ ".toList ++ [DQUOTE]

/-- The token made of two double quotes; its parsed text is empty. -/
def quoted_empty : Str := [DQUOTE, DQUOTE]

/-- A world like `calm` in which the byte in front of the parsed prompt is a
space. -/
def space_before : World := { calm with byte_before := ' ' }

/-- A world like `calm` in which the terminating NUL written behind
`spaced_prompt` is lost and the string reads on through the two bytes 0x11
and 0x04. -/
def lossy : World :=
  { calm with overrun := .lost [Char.ofNat 0x11, Char.ofNat 0x04] }

/-- A world like `calm` in which the allocator aborts the process on the damage
done by the byte written behind `spaced_prompt`. -/
def strict : World := { calm with overrun := .fatal }

/-- A word of 37 letters `p`. -/
def word37 : Str := List.replicate 37 'p'

/-- A word of 21 letters `p`. -/
def word21 : Str := List.replicate 21 'p'

/-- A state with an empty store and the default prompt. -/
def fresh : Shell := { Shell.initial none none with prompt := default_prompt }

/-- A prompt of 256 bytes, as `prompt` followed by a long word can set. -/
def long_prompt : Str := List.replicate 253 'a' ++ " > ".toList

/-- Offset, from the start of the buffer, of the byte that the test
`(*prompt)[strlen(*prompt) - 1] != ' '` reads. -/
def last_char_offset (p : Str) : Int := (p.length : Int) - 1

/-- Size passed to `malloc` for `spaced_prompt`: `strlen(*prompt) + 3`. -/
def spaced_prompt_size (p : Str) : Nat := p.length + 3

/-- Bytes stored by `sprintf(spaced_prompt, "%s > ", *prompt)`: the characters of
the formatted string and the terminating NUL. -/
def sprintf_bytes (p : Str) : Nat := (p ++ " > ".toList).length + 1

/-- Every stored text is a non-empty string. -/
def texts_nonempty (s : Shell) : Prop :=
  ∀ e ∈ store s, e.2 ≠ []

/-- Every `prompt` command of the sequence gives text tokens whose parsed text
is not empty: the second token, and for `prompt save` the fourth. -/
def parsed_texts_nonempty (cmds : List (World × List (Option Str))) : Prop :=
  ∀ c ∈ cmds, arg c.2 0 = some "prompt".toList →
    (∀ t, arg c.2 1 = some t → parse_quoted_string t ≠ []) ∧
    (arg c.2 1 = some "save".toList →
      ∀ t, arg c.2 3 = some t → parse_quoted_string t ≠ [])

/-- Every stored name is free of `=` and every stored text free of newlines, so
that `save_presets` writes one well-formed record per preset. -/
def record_format (s : Shell) : Prop :=
  ∀ e ∈ store s, EQUALS ∉ e.1 ∧ NEWLINE ∉ e.2

/-- Every `prompt save` of the sequence gives a name without `=` and a text
token whose parsed text has no newline. -/
def tokens_keep_format (cmds : List (World × List (Option Str))) : Prop :=
  ∀ c ∈ cmds, arg c.2 0 = some "prompt".toList → arg c.2 1 = some "save".toList →
    (∀ n, arg c.2 2 = some n → EQUALS ∉ n) ∧
    (∀ t, arg c.2 3 = some t → NEWLINE ∉ parse_quoted_string t)

/-- The body of the loop of `load_presets` on the line that `fgets` stored: the
two `strtok` calls and the test `if (name && prompt)`; the record copied into
the next slot, if the line is accepted. -/
def line_record (buf : List Char) : Option PromptPreset :=
  match strtok (cstr buf) EQUALS with
  | none => none
  | some (name, after) =>
    match strtok after NEWLINE with
    | none => none
    | some (prompt, _) =>
      some ⟨strncpy name 63, strncpy prompt (MAX_PROMPT_LENGTH - 1)⟩

/-- The loop of `load_presets` with the fuel that `load_presets` gives it. -/
def load_all (file : List Char) (presets : List PromptPreset) (preset_count : Nat) :
    List PromptPreset × Nat :=
  load_presets_loop file.length file presets preset_count

/-- Reference record of one line (without its newline), in the words of the
specification: the name is what stands before the first `=`, the text what
stands after it; a line without `=` is no record. -/
def spec_record (line : Str) : Option (Str × Str) :=
  if EQUALS ∈ line then
    some (line.takeWhile (fun c => c != EQUALS),
          (line.dropWhile (fun c => c != EQUALS)).drop 1)
  else none

/-- Reference loading, in the words of the specification: the records of the
lines of the file, in file order, as many as there is room for. -/
def spec_load (file : List Char) (room : Nat) : List (Str × Str) :=
  ((file.splitOn NEWLINE).filterMap spec_record).take room

/-- The record that the code keeps of one line: the reference record, dropped
when its text is empty, the name cut to 63 and the text to 255 bytes. -/
def kept_record (line : Str) : Option (Str × Str) :=
  match spec_record line with
  | none => none
  | some (name, text) =>
    if text = [] then none else some (name.take 63, text.take (MAX_PROMPT_LENGTH - 1))

/-- The line that `save_presets` writes for one preset, newline included. -/
def record_line (e : Str × Str) : List Char :=
  e.1 ++ [EQUALS] ++ e.2 ++ [NEWLINE]

/-- A presets file of four lines: a record, a line without `=`, a line with
nothing after `=`, and a last record without newline. -/
def sample_file : List Char :=
  "a=b".toList ++ [NEWLINE] ++ "zz".toList ++ [NEWLINE] ++ "q=".toList ++ [NEWLINE]
    ++ "c=d".toList

/-- The state after `prompt save n ""` on the empty store: one preset with an
empty text. -/
def empty_text_preset : Shell :=
  (handle_builtin_commands calm
    (argv ["prompt".toList, "save".toList, "n".toList, quoted_empty])
    (Shell.initial none none)).2

/-- A preset as the persistence format can hold it: the name is not empty, has
at most 63 bytes and neither `=` nor newline; the text is not empty, has at
most 255 bytes and no newline; neither holds a NUL. -/
def storable (e : Str × Str) : Prop :=
  e.1 ≠ [] ∧ e.1.length ≤ 63 ∧ EQUALS ∉ e.1 ∧ NEWLINE ∉ e.1 ∧ NUL ∉ e.1 ∧
  e.2 ≠ [] ∧ e.2.length ≤ MAX_PROMPT_LENGTH - 1 ∧ NEWLINE ∉ e.2 ∧ NUL ∉ e.2

/-! ## The tokenizer -/

theorem splitOnP_eq_takeWhile_cons (p : Char → Bool) (xs : List Char) :
    xs.splitOnP p = xs.takeWhile (fun c => !p c) ::
      (match xs.dropWhile (fun c => !p c) with
        | [] => []
        | _ :: r => r.splitOnP p) := by
  induction xs with
  | nil => simp
  | cons x xs ih =>
    rw [List.splitOnP_cons]
    by_cases h : p x = true
    · simp [h]
    · simp only [h, Bool.false_eq_true, if_false]
      rw [ih]
      simp [List.takeWhile_cons, List.dropWhile_cons, h]

theorem words_nil : words [] = [] := by
  simp [words, List.splitOn]

theorem words_space_cons (cs : Str) : words (' ' :: cs) = words cs := by
  simp [words, List.splitOn, List.splitOnP_cons]

theorem strtok_space_cons (cs : Str) : strtok (' ' :: cs) ' ' = strtok cs ' ' := by
  simp [strtok]

theorem strtok_cons_of_ne (c : Char) (cs : Str) (h : c ≠ ' ') :
    strtok (c :: cs) ' ' =
      some (c :: cs.takeWhile (fun x => x != ' '),
            (cs.dropWhile (fun x => x != ' ')).drop 1) := by
  simp [strtok, h, List.dropWhile_cons, List.takeWhile_cons]

theorem words_cons_of_ne (c : Char) (cs : Str) (h : c ≠ ' ') :
    words (c :: cs) =
      (c :: cs.takeWhile (fun x => x != ' ')) ::
        words ((cs.dropWhile (fun x => x != ' ')).drop 1) := by
  have e : (fun x : Char => !(x == ' ')) = (fun x => x != ' ') := rfl
  unfold words List.splitOn
  rw [splitOnP_eq_takeWhile_cons, e]
  simp only [List.takeWhile_cons, List.dropWhile_cons, bne_iff_ne, ne_eq, h, not_false_eq_true,
    decide_True, if_true]
  rw [List.filter_cons]
  simp only [List.isEmpty_cons, Bool.not_false, if_true]
  congr 1
  cases hd : cs.dropWhile (fun x => x != ' ') with
  | nil => simp
  | cons y r => simp

theorem strtok_words (line : Str) :
    match strtok line ' ' with
    | none => words line = []
    | some (t, r) => words line = t :: words r ∧ t ≠ [] ∧ ' ' ∉ t := by
  induction line with
  | nil => simp [strtok, words_nil]
  | cons c cs ih =>
    by_cases h : c = ' '
    · subst h
      rw [strtok_space_cons, words_space_cons]
      exact ih
    · rw [strtok_cons_of_ne c cs h]
      refine ⟨words_cons_of_ne c cs h, by simp, ?_⟩
      intro hm
      rcases List.mem_cons.1 hm with h1 | h1
      · exact h h1.symm
      · have := List.mem_takeWhile_imp h1
        simp at this

theorem parse_command_loop_eq (free : Nat) (line : Str) :
    parse_command_loop free (strtok line ' ') = (words line).take free := by
  induction free generalizing line with
  | zero => simp [parse_command_loop]
  | succ n ih =>
    have h := strtok_words line
    cases hs : strtok line ' ' with
    | none =>
      rw [hs] at h
      simp [parse_command_loop, h]
    | some tr =>
      obtain ⟨t, r⟩ := tr
      rw [hs] at h
      simp only [parse_command_loop, h.1, List.take_succ_cons]
      rw [ih]

theorem parse_command_loop_tokens (free : Nat) (line : Str) :
    ∀ t ∈ parse_command_loop free (strtok line ' '), t ≠ [] ∧ ' ' ∉ t := by
  induction free generalizing line with
  | zero => simp [parse_command_loop]
  | succ n ih =>
    have h := strtok_words line
    cases hs : strtok line ' ' with
    | none => simp [parse_command_loop]
    | some tr =>
      obtain ⟨t, r⟩ := tr
      rw [hs] at h
      intro u hu
      simp only [parse_command_loop, List.mem_cons] at hu
      rcases hu with rfl | hu
      · exact h.2
      · exact ih r u hu

theorem words_all_spaces (line : Str) (h : ∀ c ∈ line, c = ' ') : words line = [] := by
  induction line with
  | nil => exact words_nil
  | cons c cs ih =>
    have hc : c = ' ' := h c (List.mem_cons_self _ _)
    subst hc
    rw [words_space_cons]
    exact ih (fun c hc => h c (List.mem_cons_of_mem _ hc))

/-- C1. When a line has at most 63 space-separated words, `parse_command`
returns exactly those words (the maximal runs of non-space characters, i.e. the
line split at spaces with empty pieces dropped) in order, followed by NULL, and
counts them; no returned token is empty or contains a space; a line made of
spaces only (or empty) gives zero tokens.  Double quotes play no role, so this
holds in particular for every line without one. -/
theorem C1_parse_command_words (line : Str)
    (h : (words line).length ≤ MAX_ARGS - 1) :
    (parse_command line).1 = argv (words line) ∧
    (parse_command line).2 = (words line).length ∧
    (∀ t, some t ∈ (parse_command line).1 → t ≠ [] ∧ ' ' ∉ t) ∧
    ((∀ c ∈ line, c = ' ') → (parse_command line).2 = 0) := by
  have e : parse_command_loop (MAX_ARGS - 1) (strtok line ' ') = words line := by
    rw [parse_command_loop_eq, List.take_of_length_le h]
  refine ⟨?_, ?_, ?_, ?_⟩
  · simp [parse_command, argv, e]
  · simp [parse_command, e]
  · intro t ht
    simp only [parse_command, List.mem_append, List.mem_map, List.mem_singleton] at ht
    rcases ht with ⟨u, hu, hut⟩ | ht
    · cases hut
      exact parse_command_loop_tokens _ _ _ hu
    · cases ht
  · intro hs
    simp [parse_command, e, words_all_spaces line hs]

theorem C1_parse_command_words_witness :
    (words "prompt  load work ".toList).length ≤ MAX_ARGS - 1 ∧
    ((parse_command "prompt  load work ".toList).1 = argv (words "prompt  load work ".toList) ∧
    (parse_command "prompt  load work ".toList).2 = (words "prompt  load work ".toList).length ∧
    (∀ t, some t ∈ (parse_command "prompt  load work ".toList).1 → t ≠ [] ∧ ' ' ∉ t) ∧
    ((∀ c ∈ "prompt  load work ".toList, c = ' ') →
      (parse_command "prompt  load work ".toList).2 = 0)) :=
  ⟨by decide, C1_parse_command_words _ (by decide)⟩

/-- C2. For every line `parse_command` returns at most 63 tokens, namely the
first 63 space-separated words of the line in order (all of them when there are
fewer; exactly 63 when there are more, the rest being dropped); the vector holds
these tokens and then, at index `*arg_count` (at most 63, inside the 64 slots),
the NULL marker. -/
theorem C2_parse_command_truncates (line : Str) :
    (parse_command line).2 ≤ MAX_ARGS - 1 ∧
    (parse_command line).1 = argv ((words line).take (MAX_ARGS - 1)) ∧
    (parse_command line).2 = ((words line).take (MAX_ARGS - 1)).length ∧
    (MAX_ARGS - 1 < (words line).length → (parse_command line).2 = 63) ∧
    (parse_command line).1[(parse_command line).2]? = some none ∧
    (∀ i, i < (parse_command line).2 → ∃ t, (parse_command line).1[i]? = some (some t)) ∧
    (parse_command line).1.length ≤ MAX_ARGS := by
  have e := parse_command_loop_eq (MAX_ARGS - 1) line
  have hl : ((words line).take (MAX_ARGS - 1)).length ≤ MAX_ARGS - 1 := by
    rw [List.length_take]; exact Nat.min_le_left _ _
  refine ⟨?_, ?_, ?_, ?_, ?_, ?_, ?_⟩
  · simp only [parse_command, e]
    exact hl
  · simp [parse_command, argv, e]
  · simp [parse_command, e]
  · intro hlt
    simp only [parse_command, e, List.length_take]
    simp only [MAX_ARGS] at hlt ⊢
    omega
  · simp only [parse_command, e]
    rw [List.getElem?_append_right (by simp)]
    simp
  · intro i hi
    simp only [parse_command, e] at hi ⊢
    rw [List.getElem?_append_left (by simpa using hi)]
    simp only [List.getElem?_map]
    cases hg : ((words line).take (MAX_ARGS - 1))[i]? with
    | none =>
      rw [List.getElem?_eq_none_iff] at hg
      omega
    | some t => exact ⟨t, rfl⟩
  · simp only [parse_command, e, List.length_append, List.length_map, List.length_singleton]
    simp only [MAX_ARGS] at hl ⊢
    omega

/-! ## The quoted-argument parser -/

theorem scan_stopped (s : Str) (out : Str) :
    (s.foldl scan_step (.stopped, out)).2 = out := by
  induction s with
  | nil => rfl
  | cons c cs ih => simpa [List.foldl_cons, scan_step] using ih

theorem scan_eq_loop (s : Str) (q : Bool) (out : Str) :
    (s.foldl scan_step (if q then ScanMode.quoted else ScanMode.unquoted, out)).2
      = out ++ parse_quoted_loop q s := by
  induction s generalizing q out with
  | nil => simp [parse_quoted_loop]
  | cons c cs ih =>
    rw [List.foldl_cons]
    cases q with
    | true =>
      by_cases hc : c = DQUOTE
      · have := ih false out
        simpa [scan_step, parse_quoted_loop, hc] using this
      · have := ih true (out ++ [c])
        simpa [scan_step, parse_quoted_loop, hc] using this
    | false =>
      by_cases hc : c = DQUOTE
      · have := ih true out
        simpa [scan_step, parse_quoted_loop, hc] using this
      · by_cases hw : isspace c = true
        · simp [scan_step, parse_quoted_loop, hc, hw, scan_stopped]
        · have := ih false (out ++ [c])
          simpa [scan_step, parse_quoted_loop, hc, hw] using this

theorem parse_quoted_loop_no_quote (q : Bool) (s : Str) :
    DQUOTE ∉ parse_quoted_loop q s := by
  induction s generalizing q with
  | nil => simp [parse_quoted_loop]
  | cons c cs ih =>
    unfold parse_quoted_loop
    split
    · exact ih _
    · split
      · simp
      · rename_i hc _
        intro hm
        rcases List.mem_cons.1 hm with h | h
        · exact hc h.symm
        · exact ih _ h

theorem parse_quoted_loop_length (q : Bool) (s : Str) :
    (parse_quoted_loop q s).length ≤ s.length := by
  induction s generalizing q with
  | nil => simp [parse_quoted_loop]
  | cons c cs ih =>
    unfold parse_quoted_loop
    split
    · exact Nat.le_succ_of_le (ih _)
    · split
      · simp
      · simpa using ih _

/-- C3. For every input string, `parse_quoted_string` equals the reference
two-state scan (start unquoted; a double quote toggles the mode and is dropped;
other characters are copied in order; stop, excluding it, at the first
whitespace character met while unquoted, or at the end).  Hence its output
contains no double quote and is never longer than the input. -/
theorem C3_parse_quoted_string_is_reference_scan (s : Str) :
    parse_quoted_string s = reference_scan s ∧
    DQUOTE ∉ parse_quoted_string s ∧
    (parse_quoted_string s).length ≤ s.length := by
  refine ⟨?_, parse_quoted_loop_no_quote false s, parse_quoted_loop_length false s⟩
  have := scan_eq_loop s false []
  simpa [reference_scan, parse_quoted_string] using this.symm

/-! ## The preset array -/

theorem slot_set (ps : List PromptPreset) (j k : Nat) (v : PromptPreset) :
    slot (ps.set j v) k = if j = k ∧ j < ps.length then v else slot ps k := by
  unfold slot
  simp only [List.getD_eq_getElem?_getD, List.getElem?_set]
  by_cases h : j = k
  · subst h
    by_cases hl : j < ps.length
    · simp [hl]
    · simp [hl, List.getElem?_eq_none (Nat.le_of_not_lt hl)]
  · simp [h]

theorem slot_eta (ps : List PromptPreset) (j : Nat) :
    (⟨(slot ps j).name, (slot ps j).prompt⟩ : PromptPreset) = slot ps j := rfl

theorem slot_of_lt (ps : List PromptPreset) (j : Nat) (h : j < ps.length) :
    ps[j]? = some (slot ps j) := by
  unfold slot
  simp [List.getElem?_eq_getElem h]

theorem shift_presets_length (ps : List PromptPreset) (j todo : Nat) :
    (shift_presets ps j todo).length = ps.length := by
  induction todo generalizing ps j with
  | zero => rfl
  | succ n ih => simp [shift_presets, ih]

theorem slot_shift_presets (ps : List PromptPreset) (j todo k : Nat)
    (h : j + todo ≤ ps.length) :
    slot (shift_presets ps j todo) k =
      if j ≤ k ∧ k < j + todo then slot ps (k + 1) else slot ps k := by
  induction todo generalizing ps j with
  | zero =>
    rw [if_neg (by omega)]
    rfl
  | succ n ih =>
    simp only [shift_presets, slot_eta]
    rw [ih _ _ (by simp; omega)]
    simp only [slot_set]
    by_cases h1 : j + 1 ≤ k ∧ k < j + 1 + n
    · rw [if_pos h1, if_neg (by omega), if_pos (by omega)]
    · rw [if_neg h1]
      by_cases h2 : j = k
      · rw [if_pos ⟨h2, by omega⟩, if_pos (by omega), h2]
      · rw [if_neg (by omega), if_neg (by omega)]

theorem find_preset_some (ps : List PromptPreset) (n : Str) (i todo k : Nat)
    (h : find_preset ps n i todo = some k) :
    i ≤ k ∧ k < i + todo ∧ (slot ps k).name = n ∧
      ∀ j, i ≤ j → j < k → (slot ps j).name ≠ n := by
  induction todo generalizing i with
  | zero => simp [find_preset] at h
  | succ m ih =>
    unfold find_preset at h
    by_cases hn : (slot ps i).name = n
    · rw [if_pos hn] at h
      cases h
      exact ⟨Nat.le_refl _, by omega, hn, fun j h1 h2 => by omega⟩
    · rw [if_neg hn] at h
      obtain ⟨h1, h2, h3, h4⟩ := ih (i + 1) h
      refine ⟨by omega, by omega, h3, fun j hj1 hj2 => ?_⟩
      by_cases hji : j = i
      · rw [hji]; exact hn
      · exact h4 j (by omega) hj2

theorem find_preset_none (ps : List PromptPreset) (n : Str) (i todo : Nat)
    (h : find_preset ps n i todo = none) :
    ∀ j, i ≤ j → j < i + todo → (slot ps j).name ≠ n := by
  induction todo generalizing i with
  | zero => intro j h1 h2; omega
  | succ m ih =>
    unfold find_preset at h
    by_cases hn : (slot ps i).name = n
    · rw [if_pos hn] at h; cases h
    · rw [if_neg hn] at h
      intro j hj1 hj2
      by_cases hji : j = i
      · rw [hji]; exact hn
      · exact ih (i + 1) h j (by omega) (by omega)

theorem find_preset_eq_none (ps : List PromptPreset) (n : Str) (i todo : Nat)
    (h : ∀ j, i ≤ j → j < i + todo → (slot ps j).name ≠ n) :
    find_preset ps n i todo = none := by
  cases hf : find_preset ps n i todo with
  | none => rfl
  | some k =>
    obtain ⟨h1, h2, h3, _⟩ := find_preset_some ps n i todo k hf
    exact absurd h3 (h k h1 h2)

theorem find_preset_eq_some (ps : List PromptPreset) (n : Str) (todo k : Nat)
    (hk : k < todo) (hn : (slot ps k).name = n)
    (hfirst : ∀ j, j < k → (slot ps j).name ≠ n) :
    find_preset ps n 0 todo = some k := by
  cases hf : find_preset ps n 0 todo with
  | none => exact absurd hn (find_preset_none ps n 0 todo hf k (Nat.zero_le _) (by omega))
  | some m =>
    obtain ⟨_, h2, h3, h4⟩ := find_preset_some ps n 0 todo m hf
    have : m = k := by
      rcases Nat.lt_trichotomy m k with h | h | h
      · exact absurd h3 (hfirst m h)
      · exact h
      · exact absurd hn (h4 k (Nat.zero_le _) h)
    rw [this]

/-! ## The store as a list of (name, text) pairs -/

theorem store_getElem? (s : Shell) (j : Nat) (hj : j < s.preset_count)
    (hl : s.preset_count ≤ s.presets.length) :
    (store s)[j]? = some ((slot s.presets j).name, (slot s.presets j).prompt) := by
  unfold store
  rw [List.getElem?_map, List.getElem?_take_of_lt hj, slot_of_lt _ _ (by omega)]
  rfl

theorem store_length (s : Shell) (hl : s.preset_count ≤ s.presets.length) :
    (store s).length = s.preset_count := by
  simp [store, List.length_take, Nat.min_eq_left hl]

theorem mem_store (s : Shell) (e : Str × Str) (h : e ∈ store s) :
    ∃ j, j < s.preset_count ∧ j < s.presets.length ∧
      (slot s.presets j).name = e.1 ∧ (slot s.presets j).prompt = e.2 := by
  unfold store at h
  rw [List.mem_map] at h
  obtain ⟨p, hp, rfl⟩ := h
  rw [List.mem_iff_getElem?] at hp
  obtain ⟨j, hj⟩ := hp
  have hlt : j < (s.presets.take s.preset_count).length := by
    by_contra hc
    rw [List.getElem?_eq_none (by omega)] at hj
    cases hj
  rw [List.length_take] at hlt
  have h1 : j < s.preset_count := by omega
  have h2 : j < s.presets.length := by omega
  rw [List.getElem?_take_of_lt h1, slot_of_lt _ _ h2] at hj
  cases hj
  exact ⟨j, h1, h2, rfl, rfl⟩

theorem store_mem_of_slot (s : Shell) (j : Nat) (hj : j < s.preset_count)
    (hl : s.preset_count ≤ s.presets.length) :
    ((slot s.presets j).name, (slot s.presets j).prompt) ∈ store s := by
  rw [List.mem_iff_getElem?]
  exact ⟨j, store_getElem? s j hj hl⟩

/-! ## Saving, loading and deleting presets -/

theorem handle_save (w : World) (s : Shell) (n t : Str) :
    handle_builtin_commands w (argv ["prompt".toList, "save".toList, n, t]) s =
      match find_preset s.presets n 0 s.preset_count with
      | some _ => (some 1, s)
      | none =>
        if s.preset_count ≥ MAX_PRESETS then (some 1, s)
        else
          (some 1, save_presets w
            { s with
              presets := s.presets.set s.preset_count
                ⟨strncpy n 63, strncpy (parse_quoted_string t) (MAX_PROMPT_LENGTH - 1)⟩
              preset_count := s.preset_count + 1 }) := rfl

theorem handle_delete (w : World) (s : Shell) (n : Str) :
    handle_builtin_commands w (argv ["prompt".toList, "delete".toList, n]) s =
      match find_preset s.presets n 0 s.preset_count with
      | some i =>
        (some 1, save_presets w
          { s with
            presets := shift_presets s.presets i (s.preset_count - 1 - i)
            preset_count := s.preset_count - 1 })
      | none => (some 1, s) := rfl

theorem handle_load (w : World) (s : Shell) (n : Str) :
    handle_builtin_commands w (argv ["prompt".toList, "load".toList, n]) s =
      match find_preset s.presets n 0 s.preset_count with
      | some i =>
        (some 1, save_last_prompt w (slot s.presets i).prompt
          { s with prompt := (slot s.presets i).prompt })
      | none => (some 1, s) := rfl

theorem save_presets_fields (w : World) (s : Shell) :
    (save_presets w s).presets = s.presets ∧
    (save_presets w s).preset_count = s.preset_count ∧
    (save_presets w s).prompt = s.prompt := by
  unfold save_presets
  split <;> simp

theorem save_last_prompt_fields (w : World) (p : Str) (s : Shell) :
    (save_last_prompt w p s).presets = s.presets ∧
    (save_last_prompt w p s).preset_count = s.preset_count ∧
    (save_last_prompt w p s).prompt = s.prompt := by
  unfold save_last_prompt
  split <;> simp

theorem store_save_presets (w : World) (s : Shell) :
    store (save_presets w s) = store s := by
  obtain ⟨h1, h2, _⟩ := save_presets_fields w s
  simp [store, h1, h2]

theorem remove_first_named_eq_eraseIdx (n : Str) (l : List (Str × Str)) (i : Nat)
    (hi : ∃ e, l[i]? = some e ∧ e.1 = n)
    (hfirst : ∀ j e, j < i → l[j]? = some e → e.1 ≠ n) :
    remove_first_named n l = l.eraseIdx i := by
  induction l generalizing i with
  | nil =>
    obtain ⟨e, he, _⟩ := hi
    simp at he
  | cons a as ih =>
    cases i with
    | zero =>
      obtain ⟨e, he, hn⟩ := hi
      simp at he
      subst he
      simp [remove_first_named, hn]
    | succ i =>
      have ha : a.1 ≠ n := hfirst 0 a (Nat.succ_pos _) (by simp)
      simp only [remove_first_named, ha, if_false, List.eraseIdx_cons_succ]
      rw [ih i (by simpa using hi)]
      intro j e hj he
      exact hfirst (j + 1) e (by omega) (by simpa using he)

/-- C4. Save then load through the dispatcher: when the store holds fewer than
50 presets, the name has at most 63 bytes and is not in the store, then after
`prompt save n t` followed by `prompt load n` the prompt is
`parse_quoted_string t` cut to its first `MAX_PROMPT_LENGTH - 1 = 255` bytes. -/
theorem C4_save_then_load (w1 w2 : World) (s : Shell) (n t : Str)
    (hlen : s.presets.length = MAX_PRESETS)
    (hcount : s.preset_count < MAX_PRESETS)
    (hn : n.length ≤ 63)
    (hnew : ∀ e ∈ store s, e.1 ≠ n) :
    (handle_builtin_commands w2 (argv ["prompt".toList, "load".toList, n])
      (handle_builtin_commands w1 (argv ["prompt".toList, "save".toList, n, t]) s).2).2.prompt
      = (parse_quoted_string t).take 255 := by
  have hnone : find_preset s.presets n 0 s.preset_count = none := by
    apply find_preset_eq_none
    intro j _ hj
    have := hnew _ (store_mem_of_slot s j (by omega) (by omega))
    exact this
  rw [handle_save, hnone]
  simp only [ge_iff_le, Nat.not_le.2 hcount, if_false]
  rw [handle_load]
  obtain ⟨h1, h2, _⟩ := save_presets_fields w1
    { s with
      presets := s.presets.set s.preset_count
        ⟨strncpy n 63, strncpy (parse_quoted_string t) (MAX_PROMPT_LENGTH - 1)⟩
      preset_count := s.preset_count + 1 }
  rw [h1, h2]
  have hfind : find_preset
      (s.presets.set s.preset_count
        ⟨strncpy n 63, strncpy (parse_quoted_string t) (MAX_PROMPT_LENGTH - 1)⟩)
      n 0 (s.preset_count + 1) = some s.preset_count := by
    apply find_preset_eq_some
    · omega
    · rw [slot_set, if_pos ⟨rfl, by omega⟩]
      simp [strncpy, List.take_of_length_le hn]
    · intro j hj
      rw [slot_set, if_neg (by omega)]
      exact find_preset_none _ _ _ _ hnone j (Nat.zero_le _) (by omega)
  rw [hfind]
  simp only []
  rw [(save_last_prompt_fields _ _ _).2.2]
  have hc : s.preset_count < s.presets.length := by omega
  simp [slot_set, hc, strncpy, MAX_PROMPT_LENGTH]

theorem C4_save_then_load_witness :
    three_presets.presets.length = MAX_PRESETS ∧
    three_presets.preset_count < MAX_PRESETS ∧
    "work".toList.length ≤ 63 ∧
    (∀ e ∈ store three_presets, e.1 ≠ "work".toList) ∧
    (handle_builtin_commands calm (argv ["prompt".toList, "load".toList, "work".toList])
      (handle_builtin_commands calm
        (argv ["prompt".toList, "save".toList, "work".toList, quoted_foo_space])
        three_presets).2).2.prompt = (parse_quoted_string quoted_foo_space).take 255 :=
  ⟨by decide, by decide, by decide, by decide,
    C4_save_then_load calm calm three_presets "work".toList quoted_foo_space
      (by decide) (by decide) (by decide) (by decide)⟩

theorem store_after_shift (s : Shell) (i : Nat) (hi : i < s.preset_count)
    (hl : s.preset_count ≤ s.presets.length) :
    store { s with
      presets := shift_presets s.presets i (s.preset_count - 1 - i)
      preset_count := s.preset_count - 1 } = (store s).eraseIdx i := by
  apply List.ext_getElem?
  intro k
  rw [List.getElem?_eraseIdx]
  by_cases hk : k < s.preset_count - 1
  · rw [store_getElem? _ k hk (by simp [shift_presets_length]; omega)]
    simp only []
    rw [slot_shift_presets _ _ _ _ (by omega)]
    by_cases hki : k < i
    · rw [if_neg (by omega), if_pos hki, store_getElem? s k (by omega) hl]
    · rw [if_pos (by omega), if_neg hki, store_getElem? s (k + 1) (by omega) hl]
  · have h1 : (store { s with
        presets := shift_presets s.presets i (s.preset_count - 1 - i)
        preset_count := s.preset_count - 1 })[k]? = none := by
      apply List.getElem?_eq_none
      rw [store_length _ (by simp [shift_presets_length]; omega)]
      simp only []
      omega
    rw [h1, if_neg (by omega)]
    symm
    apply List.getElem?_eq_none
    rw [store_length s hl]
    omega

/-- C5. When the store contains a preset named `n`, `prompt delete n` leaves
the store equal to the previous sequence of (name, text) pairs without its
first entry named `n` (all other entries unchanged and in the same order), and
the size goes down by exactly one; the call returns 1. -/
theorem C5_delete_removes_first_named (w : World) (s : Shell) (n : Str)
    (hwf : s.wf) (hmem : ∃ e ∈ store s, e.1 = n) :
    store (handle_builtin_commands w (argv ["prompt".toList, "delete".toList, n]) s).2
      = remove_first_named n (store s) ∧
    (handle_builtin_commands w (argv ["prompt".toList, "delete".toList, n]) s).2.preset_count + 1
      = s.preset_count ∧
    (store (handle_builtin_commands w (argv ["prompt".toList, "delete".toList, n]) s).2).length + 1
      = (store s).length ∧
    (handle_builtin_commands w (argv ["prompt".toList, "delete".toList, n]) s).1 = some 1 := by
  obtain ⟨hlen, hcnt⟩ := hwf
  have hl : s.preset_count ≤ s.presets.length := by omega
  obtain ⟨e, he, hen⟩ := hmem
  obtain ⟨j, hj1, _, hj3, _⟩ := mem_store s e he
  have hex : ∃ i, find_preset s.presets n 0 s.preset_count = some i := by
    cases hf : find_preset s.presets n 0 s.preset_count with
    | none =>
      exact absurd (hj3.trans hen)
        (find_preset_none _ _ _ _ hf j (Nat.zero_le _) (by omega))
    | some i => exact ⟨i, rfl⟩
  obtain ⟨i, hf⟩ := hex
  obtain ⟨_, hi2, hi3, hi4⟩ := find_preset_some _ _ _ _ _ hf
  have hi : i < s.preset_count := by omega
  rw [handle_delete, hf]
  simp only []
  have hstore : store (save_presets w
      { s with
        presets := shift_presets s.presets i (s.preset_count - 1 - i)
        preset_count := s.preset_count - 1 }) = remove_first_named n (store s) := by
    rw [store_save_presets, store_after_shift s i hi hl]
    symm
    apply remove_first_named_eq_eraseIdx
    · exact ⟨_, store_getElem? s i hi hl, hi3⟩
    · intro k e hk hke
      rw [store_getElem? s k (by omega) hl] at hke
      cases hke
      exact hi4 k (Nat.zero_le _) hk
  refine ⟨hstore, ?_, ?_, trivial⟩
  · rw [(save_presets_fields _ _).2.1]
    simp only []
    omega
  · rw [hstore, remove_first_named_eq_eraseIdx n (store s) i
      ⟨_, store_getElem? s i hi hl, hi3⟩
      (by
        intro k e hk hke
        rw [store_getElem? s k (by omega) hl] at hke
        cases hke
        exact hi4 k (Nat.zero_le _) hk)]
    rw [List.length_eraseIdx, if_pos (by rw [store_length s hl]; exact hi)]
    have : 0 < (store s).length := by rw [store_length s hl]; omega
    omega

theorem C5_delete_removes_first_named_witness :
    three_presets.wf ∧ (∃ e ∈ store three_presets, e.1 = "b".toList) ∧
    (store (handle_builtin_commands calm (argv ["prompt".toList, "delete".toList, "b".toList])
        three_presets).2 = remove_first_named "b".toList (store three_presets) ∧
      (handle_builtin_commands calm (argv ["prompt".toList, "delete".toList, "b".toList])
        three_presets).2.preset_count + 1 = three_presets.preset_count ∧
      (store (handle_builtin_commands calm (argv ["prompt".toList, "delete".toList, "b".toList])
        three_presets).2).length + 1 = (store three_presets).length ∧
      (handle_builtin_commands calm (argv ["prompt".toList, "delete".toList, "b".toList])
        three_presets).1 = some 1) :=
  ⟨by decide, by decide,
    C5_delete_removes_first_named calm three_presets "b".toList (by decide) (by decide)⟩

/-- C8. When some preset of the store is named `n`, `prompt save n t` changes
nothing (neither the store, its size, the prompt, nor the files) and returns 1. -/
theorem C8_save_existing_name_is_noop (w : World) (s : Shell) (n t : Str)
    (hmem : ∃ e ∈ store s, e.1 = n) :
    handle_builtin_commands w (argv ["prompt".toList, "save".toList, n, t]) s = (some 1, s) := by
  obtain ⟨e, he, hen⟩ := hmem
  obtain ⟨j, hj1, _, hj3, _⟩ := mem_store s e he
  rw [handle_save]
  cases hf : find_preset s.presets n 0 s.preset_count with
  | none =>
    exact absurd (hj3.trans hen)
      (find_preset_none _ _ _ _ hf j (Nat.zero_le _) (by omega))
  | some i => rfl

theorem C8_save_existing_name_is_noop_witness :
    (∃ e ∈ store three_presets, e.1 = "b".toList) ∧
    handle_builtin_commands calm
      (argv ["prompt".toList, "save".toList, "b".toList, quoted_foo]) three_presets
      = (some 1, three_presets) :=
  ⟨by decide, C8_save_existing_name_is_noop calm three_presets "b".toList quoted_foo (by decide)⟩

/-! ## The loop of `load_presets` never runs out of fuel -/

theorem fgets_read_rest_le (room : Nat) (file : List Char) :
    (fgets_read room file).2.length ≤ file.length := by
  induction room generalizing file with
  | zero => simp [fgets_read]
  | succ n ih =>
    cases file with
    | nil => simp [fgets_read]
    | cons c cs =>
      unfold fgets_read
      split
      · simp
      · exact Nat.le_succ_of_le (ih cs)

theorem fgets_rest_lt (size : Nat) (hs : 2 ≤ size) (file buf rest : List Char)
    (h : fgets size file = some (buf, rest)) : rest.length < file.length := by
  cases file with
  | nil => simp [fgets] at h
  | cons c cs =>
    obtain ⟨k, rfl⟩ : ∃ k, size = k + 2 := ⟨size - 2, by omega⟩
    simp only [fgets, Nat.add_one_sub_one, Option.some.injEq] at h
    have hr : rest = (fgets_read (k + 1) (c :: cs)).2 := by rw [h]
    rw [hr]
    unfold fgets_read
    split
    · simp
    · simpa using Nat.lt_succ_of_le (fgets_read_rest_le k cs)

theorem load_presets_loop_step (fuel : Nat) (file : List Char)
    (ps : List PromptPreset) (c : Nat) :
    load_presets_loop (fuel + 1) file ps c =
      match fgets (MAX_PROMPT_LENGTH + 64) file with
      | none => (ps, c)
      | some (buf, rest) =>
        if c < MAX_PRESETS then
          match strtok (cstr buf) EQUALS with
          | none => load_presets_loop fuel rest ps c
          | some (name, after) =>
            match strtok after NEWLINE with
            | none => load_presets_loop fuel rest ps c
            | some (prompt, _) =>
              load_presets_loop fuel rest
                (ps.set c ⟨strncpy name 63, strncpy prompt (MAX_PROMPT_LENGTH - 1)⟩) (c + 1)
        else (ps, c) := by
  rw [load_presets_loop]

theorem load_presets_loop_fuel_succ (fuel : Nat) (file : List Char)
    (ps : List PromptPreset) (c : Nat) (h : file.length ≤ fuel) :
    load_presets_loop (fuel + 1) file ps c = load_presets_loop fuel file ps c := by
  induction fuel generalizing file ps c with
  | zero =>
    have : file = [] := List.length_eq_zero.1 (Nat.le_zero.1 h)
    subst this
    simp [load_presets_loop, fgets]
  | succ n ih =>
    rw [load_presets_loop_step (n + 1), load_presets_loop_step n]
    cases hf : fgets (MAX_PROMPT_LENGTH + 64) file with
    | none => rfl
    | some br =>
      obtain ⟨buf, rest⟩ := br
      have hlt := fgets_rest_lt _ (by decide) file buf rest hf
      have hle : rest.length ≤ n := by omega
      simp only []
      split
      · split
        · exact ih _ _ _ hle
        · split
          · exact ih _ _ _ hle
          · exact ih _ _ _ hle
      · rfl

/-- The fuel given by `load_presets` is enough: with any larger amount the loop
of `load_presets` gives the same result, so it always ends by itself (end of
file or full store) and never because the fuel ran out. -/
theorem load_presets_loop_fuel (fuel : Nat) (file : List Char)
    (ps : List PromptPreset) (c : Nat) (h : file.length ≤ fuel) :
    load_presets_loop fuel file ps c = load_presets_loop file.length file ps c := by
  induction fuel with
  | zero =>
    have : file.length = 0 := Nat.le_zero.1 h
    rw [this]
  | succ n ih =>
    by_cases hn : file.length ≤ n
    · rw [load_presets_loop_fuel_succ n file ps c hn]
      exact ih hn
    · have : file.length = n + 1 := by omega
      rw [this]

/-! ## The six ways a dispatcher call can end -/

/-- Every call of the dispatcher ends in one of six ways: the state is
unchanged; a preset was appended (`prompt save`); presets were shifted down
(`prompt delete`); a stored text became the prompt (`prompt load`); a parsed
text, with or without separator, became the prompt (`prompt <text>`); or the
process was aborted after the parsed text had become the prompt. -/
theorem handle_cases (w : World) (args : List (Option Str)) (s : Shell)
    (r : Option Int × Shell) (hr : handle_builtin_commands w args s = r) :
    r.2 = s ∨
    (∃ a1 n t, arg args 0 = some "prompt".toList ∧ arg args 1 = some a1 ∧
      a1 = "save".toList ∧ arg args 2 = some n ∧ arg args 3 = some t ∧
      find_preset s.presets n 0 s.preset_count = none ∧ ¬ s.preset_count ≥ MAX_PRESETS ∧
      r.2 = save_presets w
        { s with
          presets := s.presets.set s.preset_count
            ⟨strncpy n 63, strncpy (parse_quoted_string t) (MAX_PROMPT_LENGTH - 1)⟩
          preset_count := s.preset_count + 1 }) ∨
    (∃ n i, find_preset s.presets n 0 s.preset_count = some i ∧
      r.2 = save_presets w
        { s with
          presets := shift_presets s.presets i (s.preset_count - 1 - i)
          preset_count := s.preset_count - 1 }) ∨
    (∃ n i, find_preset s.presets n 0 s.preset_count = some i ∧
      r.2 = save_last_prompt w (slot s.presets i).prompt
        { s with prompt := (slot s.presets i).prompt }) ∨
    (∃ t p, arg args 0 = some "prompt".toList ∧ arg args 1 = some t ∧
      ((∃ tail, p = parse_quoted_string t ++ " > ".toList ++ tail) ∨
        (p = parse_quoted_string t ∧
          (match (parse_quoted_string t).getLast? with
            | some c => c
            | none => w.byte_before) = ' ')) ∧
      r.2 = save_last_prompt w p { s with prompt := p }) ∨
    (∃ t, arg args 0 = some "prompt".toList ∧ arg args 1 = some t ∧ r.1 = none ∧
      r.2 = { s with prompt := parse_quoted_string t }) := by
  unfold handle_builtin_commands at hr
  repeat' split at hr
  all_goals subst hr
  all_goals first
    | exact Or.inl rfl
    | exact Or.inr (Or.inl ⟨_, _, _, ‹_›, ‹_›, ‹_›, ‹_›, ‹_›, ‹_›, ‹_›, rfl⟩)
    | exact Or.inr (Or.inr (Or.inl ⟨_, _, ‹_›, rfl⟩))
    | exact Or.inr (Or.inr (Or.inr (Or.inl ⟨_, _, ‹_›, rfl⟩)))
    | skip
  all_goals first
    | (rename_i a1 heq _ _ _ _ _ _
       by_cases hlast : (match (parse_quoted_string a1).getLast? with
           | some c => c
           | none => w.byte_before) = ' '
       · refine Or.inr (Or.inr (Or.inr (Or.inr (Or.inl
           ⟨a1, parse_quoted_string a1, ‹_›, heq, Or.inr ⟨rfl, hlast⟩, ?_⟩))))
         dsimp only
         split <;> first | rfl | exact absurd hlast ‹_›
       · first
           | (refine Or.inr (Or.inr (Or.inr (Or.inr (Or.inl
               ⟨a1, parse_quoted_string a1 ++ " > ".toList, ‹_›, heq,
                 Or.inl ⟨[], (List.append_nil _).symm⟩, ?_⟩))))
              dsimp only
              split <;> first | rfl | exact absurd hlast ‹_›)
           | (refine Or.inr (Or.inr (Or.inr (Or.inr (Or.inr ⟨a1, ‹_›, heq, ?_, ?_⟩))))
              · dsimp only
                split <;> rfl
              · dsimp only
                split <;> rfl))
    | (rename_i a1 heq _ _ _ _ _ tl _
       by_cases hlast : (match (parse_quoted_string a1).getLast? with
           | some c => c
           | none => w.byte_before) = ' '
       · refine Or.inr (Or.inr (Or.inr (Or.inr (Or.inl
           ⟨a1, parse_quoted_string a1, ‹_›, heq, Or.inr ⟨rfl, hlast⟩, ?_⟩))))
         dsimp only
         split <;> first | rfl | exact absurd hlast ‹_›
       · refine Or.inr (Or.inr (Or.inr (Or.inr (Or.inl
           ⟨a1, parse_quoted_string a1 ++ " > ".toList ++ tl, ‹_›, heq,
             Or.inl ⟨tl, rfl⟩, ?_⟩))))
         dsimp only
         split <;> rfl)

/-! ## The capacity invariant -/

theorem wf_save_presets (w : World) (s : Shell) (h : s.wf) : (save_presets w s).wf := by
  obtain ⟨h1, h2, _⟩ := save_presets_fields w s
  unfold Shell.wf
  rw [h1, h2]
  exact h

theorem wf_save_last_prompt (w : World) (p : Str) (s : Shell) (h : s.wf) :
    (save_last_prompt w p s).wf := by
  obtain ⟨h1, h2, _⟩ := save_last_prompt_fields w p s
  unfold Shell.wf
  rw [h1, h2]
  exact h

theorem wf_handle_builtin_commands (w : World) (args : List (Option Str)) (s : Shell)
    (h : s.wf) : (handle_builtin_commands w args s).2.wf := by
  rcases handle_cases w args s _ rfl with e | ⟨_, _, _, _, _, _, _, _, _, hc, e⟩ |
    ⟨_, _, _, e⟩ | ⟨_, _, _, e⟩ | ⟨_, _, _, _, _, e⟩ | ⟨_, _, _, _, e⟩
  · rw [e]; exact h
  · rw [e]
    apply wf_save_presets
    refine ⟨?_, ?_⟩
    · simp only [List.length_set]
      exact h.1
    · simp only []
      omega
  · rw [e]
    apply wf_save_presets
    refine ⟨?_, ?_⟩
    · simp only [shift_presets_length]
      exact h.1
    · have := h.2
      simp only []
      omega
  · rw [e]; exact wf_save_last_prompt _ _ _ h
  · rw [e]; exact wf_save_last_prompt _ _ _ h
  · rw [e]; exact h

theorem wf_load_presets_loop (fuel : Nat) (file : List Char) (ps : List PromptPreset)
    (c : Nat) (h1 : ps.length = MAX_PRESETS) (h2 : c ≤ MAX_PRESETS) :
    (load_presets_loop fuel file ps c).1.length = MAX_PRESETS ∧
    (load_presets_loop fuel file ps c).2 ≤ MAX_PRESETS := by
  induction fuel generalizing file ps c with
  | zero => exact ⟨h1, h2⟩
  | succ n ih =>
    unfold load_presets_loop
    repeat' split
    all_goals first
      | exact ⟨h1, h2⟩
      | exact ih _ _ _ h1 h2
      | exact ih _ _ _ (by simpa using h1) (by omega)

theorem wf_initial (pf lf : Option (List Char)) : (Shell.initial pf lf).wf := by
  simp [Shell.wf, Shell.initial]

theorem wf_load_presets (s : Shell) (h : s.wf) : (load_presets s).wf := by
  unfold load_presets
  split
  · exact h
  · exact wf_load_presets_loop _ _ _ _ h.1 h.2

theorem wf_run_commands (s : Shell) (cmds : List (World × List (Option Str)))
    (h : s.wf) : (run_commands s cmds).wf := by
  induction cmds generalizing s with
  | nil => exact h
  | cons c cs ih =>
    obtain ⟨w, args⟩ := c
    have hstep := wf_handle_builtin_commands w args s h
    simp only [run_commands]
    split
    · exact hstep
    · exact ih _ hstep

/-- C6. Capacity invariant: after `load_presets` on any presets file (or none)
and any sequence of dispatcher calls, `preset_count` is at most `MAX_PRESETS`
= 50 (and the store has that many entries); and in any state that holds 50
presets `prompt save n t` changes nothing and returns 1, in particular for a
name `n` that is not in the store. -/
theorem C6_capacity_invariant (presets_file last_prompt_file : Option (List Char))
    (cmds : List (World × List (Option Str))) :
    (run_commands (load_presets (Shell.initial presets_file last_prompt_file)) cmds).preset_count
      ≤ MAX_PRESETS ∧
    (store (run_commands (load_presets (Shell.initial presets_file last_prompt_file))
      cmds)).length ≤ MAX_PRESETS ∧
    (∀ (w : World) (s : Shell) (n t : Str), s.preset_count = MAX_PRESETS →
      handle_builtin_commands w (argv ["prompt".toList, "save".toList, n, t]) s
        = (some 1, s)) := by
  have hwf := wf_run_commands _ cmds (wf_load_presets _ (wf_initial presets_file last_prompt_file))
  refine ⟨hwf.2, ?_, ?_⟩
  · rw [store_length _ (by rw [hwf.1]; exact hwf.2)]
    exact hwf.2
  · intro w s n t hc
    rw [handle_save]
    cases find_preset s.presets n 0 s.preset_count with
    | some i => rfl
    | none => simp [hc]

theorem C6_capacity_invariant_witness :
    (run_commands (load_presets (Shell.initial (some "a=x".toList) none))
      [(calm, argv ["prompt".toList, "save".toList, "b".toList, "y".toList])]).preset_count
      ≤ MAX_PRESETS ∧
    full_store.preset_count = MAX_PRESETS ∧
    (∀ e ∈ store full_store, e.1 ≠ "b".toList) ∧
    handle_builtin_commands calm
      (argv ["prompt".toList, "save".toList, "b".toList, "y".toList]) full_store
      = (some 1, full_store) :=
  ⟨(C6_capacity_invariant (some "a=x".toList) none
      [(calm, argv ["prompt".toList, "save".toList, "b".toList, "y".toList])]).1,
    rfl, by decide,
    (C6_capacity_invariant none none []).2.2 calm full_store "b".toList "y".toList rfl⟩

/-! ## Name uniqueness -/

/-- C7 (evaluation at the failing input). Starting from the empty store, saving
twice under the same 64-byte name is accepted both times: the duplicate check
compares the stored 63-byte name with the full token, so the store ends up with
two presets of the same name. -/
theorem C7_long_name_saved_twice :
    (store (run_commands (Shell.initial none none)
      [(calm, argv ["prompt".toList, "save".toList, long_name, "x".toList]),
       (calm, argv ["prompt".toList, "save".toList, long_name, "y".toList])])).map Prod.fst
      = [List.replicate 63 'a', List.replicate 63 'a'] ∧
    ¬ ((store (run_commands (Shell.initial none none)
      [(calm, argv ["prompt".toList, "save".toList, long_name, "x".toList]),
       (calm, argv ["prompt".toList, "save".toList, long_name, "y".toList])])).map
        Prod.fst).Nodup := by
  have e : (store (run_commands (Shell.initial none none)
      [(calm, argv ["prompt".toList, "save".toList, long_name, "x".toList]),
       (calm, argv ["prompt".toList, "save".toList, long_name, "y".toList])])).map Prod.fst
      = [List.replicate 63 'a', List.replicate 63 'a'] := by
    decide
  rw [e]
  exact ⟨rfl, by decide⟩

theorem store_after_append (s : Shell) (v : PromptPreset)
    (hc : s.preset_count < s.presets.length) :
    store { s with
      presets := s.presets.set s.preset_count v
      preset_count := s.preset_count + 1 } = store s ++ [(v.name, v.prompt)] := by
  apply List.ext_getElem?
  intro k
  have hlen : (store s).length = s.preset_count := store_length s (by omega)
  by_cases hk : k < s.preset_count + 1
  · rw [store_getElem? _ k hk (by simp; omega)]
    simp only []
    rw [slot_set]
    by_cases hkc : k = s.preset_count
    · rw [if_pos ⟨hkc.symm, hc⟩, List.getElem?_append_right (by omega), hlen, hkc]
      simp
    · rw [if_neg (by omega), List.getElem?_append_left (by omega),
        store_getElem? s k (by omega) (by omega)]
  · rw [List.getElem?_eq_none, List.getElem?_eq_none]
    · simp only [List.length_append, List.length_singleton]; omega
    · rw [store_length _ (by simp; omega)]
      simp only []
      omega

theorem save_keeps_distinct (w : World) (s : Shell) (n text : Str)
    (hwf : s.wf) (hd : names_distinct s) (hn : n.length ≤ 63)
    (hf : find_preset s.presets n 0 s.preset_count = none)
    (hc : ¬ s.preset_count ≥ MAX_PRESETS) :
    names_distinct (save_presets w
      { s with
        presets := s.presets.set s.preset_count ⟨strncpy n 63, text⟩
        preset_count := s.preset_count + 1 }) := by
  unfold names_distinct at *
  rw [store_save_presets, store_after_append s _ (by rw [hwf.1]; omega)]
  simp only [List.map_append, List.map_cons, List.map_nil]
  rw [List.nodup_append]
  refine ⟨hd, List.nodup_singleton _, ?_⟩
  intro a ha hb
  rw [List.mem_singleton] at hb
  subst hb
  rw [List.mem_map] at ha
  obtain ⟨e, he, hen⟩ := ha
  obtain ⟨j, hj1, _, hj3, _⟩ := mem_store s e he
  have := find_preset_none _ _ _ _ hf j (Nat.zero_le _) (by omega)
  apply this
  rw [hj3, hen]
  simp [strncpy, List.take_of_length_le hn]

theorem delete_keeps_distinct (w : World) (s : Shell) (n : Str) (i : Nat)
    (hwf : s.wf) (hd : names_distinct s)
    (hf : find_preset s.presets n 0 s.preset_count = some i) :
    names_distinct (save_presets w
      { s with
        presets := shift_presets s.presets i (s.preset_count - 1 - i)
        preset_count := s.preset_count - 1 }) := by
  obtain ⟨_, hi, _, _⟩ := find_preset_some _ _ _ _ _ hf
  unfold names_distinct at *
  rw [store_save_presets, store_after_shift s i (by omega) (by rw [hwf.1]; exact hwf.2)]
  exact hd.sublist ((List.eraseIdx_sublist _ _).map _)

theorem save_last_prompt_keeps_distinct (w : World) (p q : Str) (s : Shell)
    (hd : names_distinct s) :
    names_distinct (save_last_prompt w p { s with prompt := q }) := by
  obtain ⟨h1, h2, _⟩ := save_last_prompt_fields w p { s with prompt := q }
  unfold names_distinct store at *
  rw [h1, h2]
  exact hd

theorem handle_keeps_distinct (w : World) (args : List (Option Str)) (s : Shell)
    (hwf : s.wf) (hd : names_distinct s)
    (hfit : ∀ n, arg args 2 = some n → n.length ≤ 63) :
    names_distinct (handle_builtin_commands w args s).2 := by
  rcases handle_cases w args s _ rfl with e | ⟨_, n, _, _, _, _, h2, _, hf, hc, e⟩ |
    ⟨n, i, hf, e⟩ | ⟨_, _, _, e⟩ | ⟨_, _, _, _, _, e⟩ | ⟨_, _, _, _, e⟩
  · rw [e]; exact hd
  · rw [e]; exact save_keeps_distinct w s n _ hwf hd (hfit n h2) hf hc
  · rw [e]; exact delete_keeps_distinct w s n i hwf hd hf
  · rw [e]; exact save_last_prompt_keeps_distinct _ _ _ _ hd
  · rw [e]; exact save_last_prompt_keeps_distinct _ _ _ _ hd
  · rw [e]; exact hd

/-- Supplement to C7. As long as every name given to the dispatcher has at most
63 bytes, the names in the store stay pairwise distinct; the duplicates of C7
need a name that `strncpy` cuts. -/
theorem names_distinct_of_names_fit (cmds : List (World × List (Option Str)))
    (s : Shell) (hwf : s.wf) (hd : names_distinct s) (hfit : names_fit cmds) :
    names_distinct (run_commands s cmds) := by
  induction cmds generalizing s with
  | nil => exact hd
  | cons c cs ih =>
    obtain ⟨w, args⟩ := c
    have hstep := handle_keeps_distinct w args s hwf hd
      (fun n hn => hfit (w, args) (List.mem_cons_self _ _) n hn)
    simp only [run_commands]
    split
    · exact hstep
    · exact ih _ (wf_handle_builtin_commands w args s hwf) hstep
        (fun c hc => hfit c (List.mem_cons_of_mem _ hc))

/-! ## Setting the prompt -/

theorem handle_prompt_set (w : World) (s : Shell) (t : Str)
    (h1 : t ≠ "save".toList) (h2 : t ≠ "delete".toList) (h3 : t ≠ "load".toList)
    (h4 : t ≠ "list".toList) :
    handle_builtin_commands w (argv ["prompt".toList, t]) s =
      (if (match (parse_quoted_string t).getLast? with
            | some c => c
            | none => w.byte_before) ≠ ' ' then
        match w.overrun with
        | .spare =>
          (some 1, save_last_prompt w (parse_quoted_string t ++ " > ".toList)
            { s with prompt := parse_quoted_string t ++ " > ".toList })
        | .lost tail =>
          (some 1, save_last_prompt w (parse_quoted_string t ++ " > ".toList ++ tail)
            { s with prompt := parse_quoted_string t ++ " > ".toList ++ tail })
        | .fatal => (none, { s with prompt := parse_quoted_string t })
      else
        (some 1, save_last_prompt w (parse_quoted_string t)
          { s with prompt := parse_quoted_string t }) : Option Int × Shell) := by
  have e0 : arg (argv ["prompt".toList, t]) 0 = some "prompt".toList := rfl
  have e1 : arg (argv ["prompt".toList, t]) 1 = some t := rfl
  unfold handle_builtin_commands
  rw [e0, e1]
  rw [if_neg (by decide), if_neg (by decide), if_pos rfl]
  simp only [h1, h2, h3, h4, if_false]
  try rfl

/-- What `prompt t` does for a text token `t` (not `save`, `delete`, `load`,
`list`) whose parsed text `p` is not empty: when `p` ends in a space the prompt
becomes `p`; otherwise the separator is written one byte too far, and the
prompt becomes `p` followed by `" > "` if that byte does no harm, reads on
into the bytes behind it if the terminating NUL is lost, and the call does not
return if the allocator aborts. -/
theorem prompt_set_result (w : World) (s : Shell) (t : Str)
    (h1 : t ≠ "save".toList) (h2 : t ≠ "delete".toList) (h3 : t ≠ "load".toList)
    (h4 : t ≠ "list".toList) (hp : parse_quoted_string t ≠ []) :
    ((parse_quoted_string t).getLast? = some ' ' →
      (handle_builtin_commands w (argv ["prompt".toList, t]) s).1 = some 1 ∧
      (handle_builtin_commands w (argv ["prompt".toList, t]) s).2.prompt
        = parse_quoted_string t) ∧
    ((parse_quoted_string t).getLast? ≠ some ' ' → w.overrun = .spare →
      (handle_builtin_commands w (argv ["prompt".toList, t]) s).1 = some 1 ∧
      (handle_builtin_commands w (argv ["prompt".toList, t]) s).2.prompt
        = parse_quoted_string t ++ " > ".toList) ∧
    ((parse_quoted_string t).getLast? ≠ some ' ' → ∀ tail, w.overrun = .lost tail →
      (handle_builtin_commands w (argv ["prompt".toList, t]) s).1 = some 1 ∧
      (handle_builtin_commands w (argv ["prompt".toList, t]) s).2.prompt
        = parse_quoted_string t ++ " > ".toList ++ tail) ∧
    ((parse_quoted_string t).getLast? ≠ some ' ' → w.overrun = .fatal →
      (handle_builtin_commands w (argv ["prompt".toList, t]) s).1 = none) := by
  rw [handle_prompt_set w s t h1 h2 h3 h4]
  cases hl : (parse_quoted_string t).getLast? with
  | none =>
    rw [List.getLast?_eq_none_iff] at hl
    exact absurd hl hp
  | some c =>
    simp only []
    by_cases hc : c = ' '
    · subst hc
      refine ⟨fun _ => ?_, fun h => absurd rfl h, fun h => absurd rfl h, fun h => absurd rfl h⟩
      rw [if_neg (not_not.2 rfl)]
      exact ⟨rfl, (save_last_prompt_fields _ _ _).2.2⟩
    · have hne : some c ≠ some ' ' := fun h => hc (Option.some.inj h)
      rw [if_pos hc]
      refine ⟨fun h => absurd h hne, fun _ ho => ?_, fun _ tail ho => ?_, fun _ ho => ?_⟩
      · rw [ho]
        exact ⟨rfl, (save_last_prompt_fields _ _ _).2.2⟩
      · rw [ho]
        exact ⟨rfl, (save_last_prompt_fields _ _ _).2.2⟩
      · rw [ho]

/-- C9 (what the code does). `prompt` followed by a word of 37 letters takes
the separator branch: the buffer has 40 bytes and `sprintf` stores 41, so the
terminating NUL lies behind the buffer.  Where that byte is lost the prompt is
the word, `" > "` and the bytes that follow (here 0x11, 0x04), not the word
followed by `" > "`.  Where the byte does no harm the two examples of the
specification come out as stated. -/
theorem C9_separator_loses_its_terminator :
    parse_quoted_string word37 = word37 ∧ word37.getLast? ≠ some ' ' ∧
    spaced_prompt_size word37 = 40 ∧ sprintf_bytes word37 = 41 ∧
    (handle_builtin_commands lossy (argv ["prompt".toList, word37]) fresh).2.prompt
      = word37 ++ " > ".toList ++ [Char.ofNat 0x11, Char.ofNat 0x04] ∧
    (handle_builtin_commands lossy (argv ["prompt".toList, word37]) fresh).2.prompt
      ≠ word37 ++ " > ".toList ∧
    (handle_builtin_commands calm (argv ["prompt".toList, quoted_foo]) fresh).2.prompt
      = "foo > ".toList ∧
    (handle_builtin_commands calm (argv ["prompt".toList, quoted_foo_space]) fresh).2.prompt
      = "foo ".toList := by
  refine ⟨by decide, by decide, by decide, by decide, by decide, by decide, by decide,
    by decide⟩

/-! ## The executor -/

theorem arg_argv_zero (t : Str) (ts : List Str) : arg (argv (t :: ts)) 0 = some t := rfl

/-- The value the dispatcher returns, by first token: 0 for `exit`; 1 for `cd`
and `prompt`, unless the separator write of `prompt <text>` makes the allocator
abort the process; -1 for anything else. -/
theorem handle_builtin_commands_ret (w : World) (args : List (Option Str)) (s : Shell)
    (r : Option Int × Shell) (hr : handle_builtin_commands w args s = r) :
    (arg args 0 = some "exit".toList ∧ r.1 = some 0) ∨
    (arg args 0 ≠ some "exit".toList ∧
      (arg args 0 = some "cd".toList ∨ arg args 0 = some "prompt".toList) ∧ r.1 = some 1) ∨
    (arg args 0 ≠ some "exit".toList ∧ arg args 0 ≠ some "cd".toList ∧
      arg args 0 = some "prompt".toList ∧ w.overrun = .fatal ∧ r.1 = none) ∨
    (arg args 0 ≠ some "exit".toList ∧ arg args 0 ≠ some "cd".toList ∧
      arg args 0 ≠ some "prompt".toList ∧ r.1 = some (-1)) := by
  unfold handle_builtin_commands at hr
  repeat' split at hr
  all_goals try dsimp only at hr
  all_goals try split at hr
  all_goals subst hr
  all_goals first
    | exact Or.inl ⟨‹_›, rfl⟩
    | exact Or.inr (Or.inl ⟨‹_›, Or.inl ‹_›, rfl⟩)
    | exact Or.inr (Or.inl ⟨‹_›, Or.inr ‹_›, rfl⟩)
    | exact Or.inr (Or.inr (Or.inl ⟨‹_›, ‹_›, ‹_›, ‹_›, rfl⟩))
    | exact Or.inr (Or.inr (Or.inr ⟨‹_›, ‹_›, ‹_›, rfl⟩))

/-- What `execute_command` returns: 0 exactly when the first token is `exit`;
1 on the empty sequence, on `cd`, on `prompt` unless the separator write makes
the allocator abort the process, when `fork` fails, and, in the parent, once
the spawned program has terminated; in no case a third value. -/
theorem execute_command_result (w : World) (tokens : List Str) (s : Shell) :
    ((execute_command w (argv tokens) tokens.length s).1 = some 0 ↔
      tokens.head? = some "exit".toList) ∧
    (tokens.head? ≠ some "exit".toList →
      (tokens = [] ∨ tokens.head? = some "cd".toList ∨
        (tokens.head? = some "prompt".toList ∧ w.overrun ≠ .fatal) ∨
        (tokens.head? ≠ some "prompt".toList ∧
          (w.fork_result < 0 ∨ (0 < w.fork_result ∧ wait_loop w.wait_results = true)))) →
      (execute_command w (argv tokens) tokens.length s).1 = some 1) ∧
    ((execute_command w (argv tokens) tokens.length s).1 = some 0 ∨
      (execute_command w (argv tokens) tokens.length s).1 = some 1 ∨
      (execute_command w (argv tokens) tokens.length s).1 = none) := by
  cases tokens with
  | nil => simp [execute_command]
  | cons t ts =>
    have hret := handle_builtin_commands_ret w (argv (t :: ts)) s _ rfl
    rw [arg_argv_zero] at hret
    simp only [List.head?_cons, Option.some.injEq, ne_eq] at *
    generalize "exit".toList = kExit at *
    generalize "cd".toList = kCd at *
    generalize "prompt".toList = kPrompt at *
    simp only [execute_command, List.length_cons, Nat.succ_ne_zero, if_false]
    rcases hret with ⟨h0, h⟩ | ⟨h0, h12, h⟩ | ⟨h0, h1, h2, hf, h⟩ | ⟨h0, h1, h2, h⟩
    · rw [h]
      simp [h0]
    · rw [h]
      simp [h0]
    · rw [h]
      subst h2
      simp [h0, h1, hf]
    · rw [h]
      simp only [show ¬ ((-1 : Int) ≥ 0) by decide, if_false]
      by_cases hf0 : w.fork_result = 0
      · simp [hf0, h0, h1, h2]
      · rw [if_neg hf0]
        by_cases hf1 : w.fork_result < 0
        · simp [hf1, h0]
        · rw [if_neg hf1]
          by_cases hwl : wait_loop w.wait_results = true
          · simp [hwl, h0]
          · simp [hwl, h0, h1, h2, hf1]

/-- C10 (what the code does). `prompt` followed by a word of 21 letters is not
`exit`, yet the call does not return 1: the separator branch stores 25 bytes in
a buffer of 24, and where the allocator notices the damage in the `free` that
follows, the process is aborted inside the call.  `exit` returns 0, and the
same command returns 1 where the byte does no harm. -/
theorem C10_prompt_can_abort_the_shell :
    ["prompt".toList, word21].head? ≠ some "exit".toList ∧
    spaced_prompt_size word21 = 24 ∧ sprintf_bytes word21 = 25 ∧
    (execute_command strict (argv ["prompt".toList, word21]) 2 fresh).1 = none ∧
    (execute_command strict (argv ["prompt".toList, word21]) 2 fresh).1 ≠ some 1 ∧
    (execute_command calm (argv ["prompt".toList, word21]) 2 fresh).1 = some 1 ∧
    (execute_command calm (argv ["exit".toList]) 1 fresh).1 = some 0 := by
  refine ⟨by decide, by decide, by decide, by decide, by decide, by decide, by decide⟩

/-! ## End to end: a quoted text with spaces -/

/-- C11 (what the code does on the scenario). From the empty store the line
`prompt save work "me@host $ "` is split at its spaces into six tokens, so the
text token is `"me@host` and the stored text is `me@host`, not `me@host $ `;
the file written is `work=me@host` plus newline; `prompt load work` then makes
the prompt `me@host`; `prompt delete work` empties the store and the file. -/
theorem C11_quoted_text_is_cut_at_first_space :
    (parse_command quoted_line).2 = 6 ∧
    store (main_step calm quoted_line (Shell.initial none none)).2
      = [("work".toList, "me@host".toList)] ∧
    store (main_step calm quoted_line (Shell.initial none none)).2
      ≠ [("work".toList, "me@host $ ".toList)] ∧
    (main_step calm quoted_line (Shell.initial none none)).2.presets_file
      = some ("work=me@host".toList ++ [NEWLINE]) ∧
    (main_step calm "prompt load work".toList
      (main_step calm quoted_line (Shell.initial none none)).2).2.prompt
      = "me@host".toList ∧
    store (main_step calm "prompt delete work".toList
      (main_step calm "prompt load work".toList
        (main_step calm quoted_line (Shell.initial none none)).2).2).2 = [] ∧
    (main_step calm "prompt delete work".toList
      (main_step calm "prompt load work".toList
        (main_step calm quoted_line (Shell.initial none none)).2).2).2.presets_file
      = some [] := by
  refine ⟨by decide, by decide, by decide, by decide, by decide, by decide, by decide⟩

/-! ## Not found -/

/-- C13. When no preset of the store is named `n`, both `prompt delete n` and
`prompt load n` return 1 and leave the whole state (store, count, prompt, files)
unchanged. -/
theorem C13_not_found_is_noop (w : World) (s : Shell) (n : Str)
    (hwf : s.wf) (hnew : ∀ e ∈ store s, e.1 ≠ n) :
    handle_builtin_commands w (argv ["prompt".toList, "delete".toList, n]) s = (some 1, s) ∧
    handle_builtin_commands w (argv ["prompt".toList, "load".toList, n]) s = (some 1, s) := by
  have hnone : find_preset s.presets n 0 s.preset_count = none := by
    apply find_preset_eq_none
    intro j _ hj
    exact hnew _ (store_mem_of_slot s j (by omega) (by rw [hwf.1]; exact hwf.2))
  rw [handle_delete, handle_load, hnone]
  exact ⟨rfl, rfl⟩

theorem C13_not_found_is_noop_witness :
    three_presets.wf ∧ (∀ e ∈ store three_presets, e.1 ≠ "work".toList) ∧
    (handle_builtin_commands calm (argv ["prompt".toList, "delete".toList, "work".toList])
        three_presets = (some 1, three_presets) ∧
      handle_builtin_commands calm (argv ["prompt".toList, "load".toList, "work".toList])
        three_presets = (some 1, three_presets)) :=
  ⟨by decide, by decide,
    C13_not_found_is_noop calm three_presets "work".toList (by decide) (by decide)⟩

/-! ## The empty prompt text and the separator buffer -/

/-- C14 (what the code does). For the token of two double quotes the parsed text
is empty, the last-character test reads at offset -1, in front of the buffer,
and the prompt that results depends on the byte found there: it is empty when
that byte is a space; otherwise the separator branch runs and gives `" > "`
(where the byte it writes behind its own buffer does no harm, see C19). -/
theorem C14_empty_text_reads_in_front_of_buffer :
    parse_quoted_string quoted_empty = [] ∧
    last_char_offset (parse_quoted_string quoted_empty) = -1 ∧
    (∀ (w : World) (s : Shell),
      (handle_builtin_commands w (argv ["prompt".toList, quoted_empty]) s).2.prompt
        = if w.byte_before = ' ' then []
          else match w.overrun with
            | .spare => " > ".toList
            | .lost tail => " > ".toList ++ tail
            | .fatal => []) ∧
    (handle_builtin_commands space_before (argv ["prompt".toList, quoted_empty]) fresh).2.prompt
      = [] ∧
    (handle_builtin_commands calm (argv ["prompt".toList, quoted_empty]) fresh).2.prompt
      = " > ".toList := by
  refine ⟨by decide, by decide, ?_, by decide, by decide⟩
  intro w s
  rw [handle_prompt_set w s quoted_empty (by decide) (by decide) (by decide) (by decide)]
  have e : parse_quoted_string quoted_empty = [] := by decide
  rw [e]
  simp only [List.getLast?_nil, List.nil_append]
  by_cases h : w.byte_before = ' '
  · rw [if_neg (not_not.2 h), if_pos h]
    exact (save_last_prompt_fields _ _ _).2.2
  · rw [if_pos h, if_neg h]
    cases w.overrun with
    | spare => exact (save_last_prompt_fields _ _ _).2.2
    | lost tail => exact (save_last_prompt_fields _ _ _).2.2
    | fatal => rfl

/-- C19 (what the code does). In the separator branch the buffer has
`strlen(p) + 3` bytes while `sprintf` stores `strlen(p) + 4`: the text, the
three characters of `" > "` and the terminating NUL.  The buffer is one byte
short for every `p`; for `foo` it has 6 bytes and 7 are written. -/
theorem C19_separator_buffer_one_byte_short :
    (∀ p : Str, sprintf_bytes p = spaced_prompt_size p + 1) ∧
    spaced_prompt_size "foo".toList = 6 ∧ sprintf_bytes "foo".toList = 7 ∧
    (handle_builtin_commands calm (argv ["prompt".toList, "foo".toList]) fresh).2.prompt
      = "foo > ".toList := by
  refine ⟨?_, by decide, by decide, by decide⟩
  intro p
  simp [sprintf_bytes, spaced_prompt_size]

/-! ## Persistence of the prompt -/

theorem fgets_read_all (room : Nat) (p : List Char)
    (hnl : NEWLINE ∉ p) (hlen : p.length ≤ room) : fgets_read room p = (p, []) := by
  induction p generalizing room with
  | nil => cases room <;> rfl
  | cons c cs ih =>
    cases room with
    | zero => simp at hlen
    | succ n =>
      have hc : c ≠ NEWLINE := fun h => hnl (h ▸ List.mem_cons_self _ _)
      have hcs : NEWLINE ∉ cs := fun h => hnl (List.mem_cons_of_mem _ h)
      unfold fgets_read
      rw [if_neg hc, ih n hcs (by simpa using hlen)]

theorem cstr_of_no_nul (p : List Char) (h : NUL ∉ p) : cstr p = p := by
  unfold cstr
  rw [List.takeWhile_eq_self_iff]
  intro c hc
  simp only [bne_iff_ne, ne_eq]
  exact fun e => h (e ▸ hc)

/-- C18 (as amended). For a non-empty prompt `p` of at most
`MAX_PROMPT_LENGTH - 1 = 255` bytes without newline (and, being a C string,
without NUL), `load_last_prompt` on the file that `save_last_prompt` has written
returns exactly `p`. -/
theorem C18_last_prompt_round_trip (w : World) (s : Shell) (p : Str)
    (hw : w.last_prompt_writable = true)
    (hne : p ≠ []) (hnl : NEWLINE ∉ p) (hnul : NUL ∉ p)
    (hlen : p.length ≤ MAX_PROMPT_LENGTH - 1) :
    load_last_prompt (save_last_prompt w p s).last_prompt_file = some p := by
  have hfile : (save_last_prompt w p s).last_prompt_file = some p := by
    simp [save_last_prompt, hw]
  rw [hfile]
  cases p with
  | nil => exact absurd rfl hne
  | cons c cs =>
    have hread := fgets_read_all (MAX_PROMPT_LENGTH - 1) (c :: cs) hnl hlen
    simp only [load_last_prompt, fgets, hread, cstr_of_no_nul _ hnul]
    have hlast : (c :: cs).getLast? ≠ some NEWLINE := by
      intro h
      exact hnl (List.mem_of_getLast?_eq_some h)
    rw [if_neg hlast]

theorem C18_last_prompt_round_trip_witness :
    calm.last_prompt_writable = true ∧ default_prompt ≠ [] ∧ NEWLINE ∉ default_prompt ∧
    NUL ∉ default_prompt ∧ default_prompt.length ≤ MAX_PROMPT_LENGTH - 1 ∧
    load_last_prompt (save_last_prompt calm default_prompt (Shell.initial none none)).last_prompt_file
      = some default_prompt :=
  ⟨rfl, by decide, by decide, by decide, by decide,
    C18_last_prompt_round_trip calm (Shell.initial none none) default_prompt
      rfl (by decide) (by decide) (by decide) (by decide)⟩

set_option maxRecDepth 20000 in
/-- C18 fails as stated: a prompt of 256 bytes without newline is written in
full, but `load_last_prompt` reads at most 255 bytes of it. -/
theorem C18_long_prompt_is_cut :
    long_prompt ≠ [] ∧ NEWLINE ∉ long_prompt ∧
    (save_last_prompt calm long_prompt (Shell.initial none none)).last_prompt_file
      = some long_prompt ∧
    load_last_prompt (save_last_prompt calm long_prompt (Shell.initial none none)).last_prompt_file
      = some (long_prompt.take 255) ∧
    load_last_prompt (save_last_prompt calm long_prompt (Shell.initial none none)).last_prompt_file
      ≠ some long_prompt := by
  refine ⟨by decide, by decide, by decide, by decide, by decide⟩

/-! ## The prompt stays non-empty when the texts are non-empty -/

theorem store_save_last_prompt (w : World) (p q : Str) (s : Shell) :
    store (save_last_prompt w p { s with prompt := q }) = store s := by
  obtain ⟨h1, h2, _⟩ := save_last_prompt_fields w p { s with prompt := q }
  unfold store
  rw [h1, h2]

theorem prompt_step_nonempty (w : World) (args : List (Option Str)) (s : Shell)
    (hwf : s.wf) (hp : s.prompt ≠ []) (ht : texts_nonempty s)
    (hargs : arg args 0 = some "prompt".toList →
      (∀ t, arg args 1 = some t → parse_quoted_string t ≠ []) ∧
      (arg args 1 = some "save".toList →
        ∀ t, arg args 3 = some t → parse_quoted_string t ≠ [])) :
    (handle_builtin_commands w args s).2.prompt ≠ [] ∧
    texts_nonempty (handle_builtin_commands w args s).2 := by
  have hl : s.preset_count ≤ s.presets.length := by rw [hwf.1]; exact hwf.2
  rcases handle_cases w args s _ rfl with h | ⟨a1, n, t, h0, h1, hs, _, h3, _, hc, h⟩ |
    ⟨n, i, hf, h⟩ | ⟨n, i, hf, h⟩ | ⟨t, p, h0, h1, hp2, h⟩ | ⟨t, h0, h1, _, h⟩
  · rw [h]; exact ⟨hp, ht⟩
  · rw [h]
    refine ⟨by rw [(save_presets_fields _ _).2.2]; exact hp, ?_⟩
    unfold texts_nonempty
    rw [store_save_presets, store_after_append s _ (by rw [hwf.1]; omega)]
    intro e he
    rcases List.mem_append.1 he with he | he
    · exact ht e he
    · rw [List.mem_singleton] at he
      subst he
      have hne := (hargs h0).2 (by rw [h1, hs]) t h3
      simp only [strncpy, MAX_PROMPT_LENGTH]
      intro hnil
      rw [List.take_eq_nil_iff] at hnil
      rcases hnil with hnil | hnil
      · omega
      · exact hne hnil
  · rw [h]
    obtain ⟨_, hi, _, _⟩ := find_preset_some _ _ _ _ _ hf
    refine ⟨by rw [(save_presets_fields _ _).2.2]; exact hp, ?_⟩
    unfold texts_nonempty
    rw [store_save_presets, store_after_shift s i (by omega) hl]
    exact fun e he => ht e ((List.eraseIdx_sublist _ _).subset he)
  · rw [h]
    obtain ⟨_, hi, _, _⟩ := find_preset_some _ _ _ _ _ hf
    have hmem := store_mem_of_slot s i (by omega) hl
    refine ⟨?_, ?_⟩
    · rw [(save_last_prompt_fields _ _ _).2.2]
      exact ht _ hmem
    · unfold texts_nonempty
      rw [store_save_last_prompt]
      exact ht
  · rw [h]
    have hne := (hargs h0).1 t h1
    refine ⟨?_, ?_⟩
    · rw [(save_last_prompt_fields _ _ _).2.2]
      rcases hp2 with ⟨tail, hp2⟩ | ⟨hp2, _⟩
      · rw [hp2]; simp
      · rw [hp2]; exact hne
    · unfold texts_nonempty
      rw [store_save_last_prompt]
      exact ht
  · rw [h]
    exact ⟨(hargs h0).1 t h1, ht⟩

/-- C12 (as amended). Starting from a non-empty prompt and the empty store,
after every sequence of dispatcher calls in which each text token given to
`prompt` (the second token, and the fourth of `prompt save`) parses to a
non-empty string, the prompt is a non-empty string. -/
theorem C12_prompt_stays_nonempty (cmds : List (World × List (Option Str)))
    (s : Shell) (hwf : s.wf) (hp : s.prompt ≠ []) (hempty : store s = [])
    (hcmds : parsed_texts_nonempty cmds) :
    (run_commands s cmds).prompt ≠ [] := by
  have key : ∀ (cmds : List (World × List (Option Str))) (s : Shell), s.wf →
      s.prompt ≠ [] → texts_nonempty s → parsed_texts_nonempty cmds →
      (run_commands s cmds).prompt ≠ [] := by
    intro cmds
    induction cmds with
    | nil => exact fun s _ hp _ _ => hp
    | cons c cs ih =>
      intro s hwf hp ht hc
      obtain ⟨w, args⟩ := c
      have hstep := prompt_step_nonempty w args s hwf hp ht
        (hc (w, args) (List.mem_cons_self _ _))
      simp only [run_commands]
      split
      · exact hstep.1
      · exact ih _ (wf_handle_builtin_commands w args s hwf) hstep.1 hstep.2
          (fun c hcm => hc c (List.mem_cons_of_mem _ hcm))
  apply key cmds s hwf hp _ hcmds
  intro e he
  rw [hempty] at he
  cases he

theorem C12_prompt_stays_nonempty_witness :
    fresh.wf ∧ fresh.prompt ≠ [] ∧ store fresh = [] ∧
    parsed_texts_nonempty
      [(calm, argv ["prompt".toList, "save".toList, "n".toList, "x".toList]),
       (calm, argv ["prompt".toList, "load".toList, "n".toList])] ∧
    (run_commands fresh
      [(calm, argv ["prompt".toList, "save".toList, "n".toList, "x".toList]),
       (calm, argv ["prompt".toList, "load".toList, "n".toList])]).prompt ≠ [] :=
  have hc : parsed_texts_nonempty
      [(calm, argv ["prompt".toList, "save".toList, "n".toList, "x".toList]),
       (calm, argv ["prompt".toList, "load".toList, "n".toList])] := by
    intro c hc
    simp only [List.mem_cons, List.mem_singleton, List.not_mem_nil, or_false] at hc
    rcases hc with rfl | rfl
    · intro _
      refine ⟨fun t ht => ?_, fun _ t ht => ?_⟩
      · cases ht; decide
      · cases ht; decide
    · intro _
      refine ⟨fun t ht => ?_, fun h => ?_⟩
      · cases ht; decide
      · exact absurd h (by decide)
  ⟨by decide, by decide, by decide, hc,
    C12_prompt_stays_nonempty _ fresh (by decide) (by decide) (by decide) hc⟩

/-- C12 fails as stated: from the default prompt and the empty store, saving a
preset whose text token is two double quotes and loading it leaves the prompt
empty. -/
theorem C12_empty_text_makes_prompt_empty :
    fresh.prompt ≠ [] ∧ store fresh = [] ∧
    (run_commands fresh
      [(calm, argv ["prompt".toList, "save".toList, "n".toList, quoted_empty]),
       (calm, argv ["prompt".toList, "load".toList, "n".toList])]).prompt = [] := by
  refine ⟨by decide, by decide, by decide⟩

/-! ## Record format of the stored presets -/

theorem format_step (w : World) (args : List (Option Str)) (s : Shell)
    (hwf : s.wf) (hf : record_format s)
    (hargs : arg args 0 = some "prompt".toList → arg args 1 = some "save".toList →
      (∀ n, arg args 2 = some n → EQUALS ∉ n) ∧
      (∀ t, arg args 3 = some t → NEWLINE ∉ parse_quoted_string t)) :
    record_format (handle_builtin_commands w args s).2 := by
  have hl : s.preset_count ≤ s.presets.length := by rw [hwf.1]; exact hwf.2
  rcases handle_cases w args s _ rfl with h | ⟨a1, n, t, h0, h1, hs, h2, h3, _, hc, h⟩ |
    ⟨n, i, hfi, h⟩ | ⟨n, i, hfi, h⟩ | ⟨t, p, h0, h1, hp2, h⟩ | ⟨t, h0, h1, _, h⟩
  · rw [h]; exact hf
  · rw [h]
    unfold record_format
    rw [store_save_presets, store_after_append s _ (by rw [hwf.1]; omega)]
    intro e he
    rcases List.mem_append.1 he with he | he
    · exact hf e he
    · rw [List.mem_singleton] at he
      subst he
      obtain ⟨hn, ht⟩ := hargs h0 (by rw [h1, hs])
      exact ⟨fun hm => hn n h2 (List.mem_of_mem_take hm),
        fun hm => ht t h3 (List.mem_of_mem_take hm)⟩
  · rw [h]
    obtain ⟨_, hi, _, _⟩ := find_preset_some _ _ _ _ _ hfi
    unfold record_format
    rw [store_save_presets, store_after_shift s i (by omega) hl]
    exact fun e he => hf e ((List.eraseIdx_sublist _ _).subset he)
  · rw [h]
    unfold record_format
    rw [store_save_last_prompt]
    exact hf
  · rw [h]
    unfold record_format
    rw [store_save_last_prompt]
    exact hf
  · rw [h]
    exact hf

/-- C17 (as amended). Starting from the empty store, after every sequence of
dispatcher calls in which each `prompt save` gives a name without `=` and a
text token whose parsed text has no newline, every name in the store is free
of `=` and every text free of newlines. -/
theorem C17_record_format_kept (cmds : List (World × List (Option Str)))
    (s : Shell) (hwf : s.wf) (hempty : store s = [])
    (hcmds : tokens_keep_format cmds) :
    record_format (run_commands s cmds) := by
  have key : ∀ (cmds : List (World × List (Option Str))) (s : Shell), s.wf →
      record_format s → tokens_keep_format cmds → record_format (run_commands s cmds) := by
    intro cmds
    induction cmds with
    | nil => exact fun s _ hf _ => hf
    | cons c cs ih =>
      intro s hwf hf hc
      obtain ⟨w, args⟩ := c
      have hstep := format_step w args s hwf hf (hc (w, args) (List.mem_cons_self _ _))
      simp only [run_commands]
      split
      · exact hstep
      · exact ih _ (wf_handle_builtin_commands w args s hwf) hstep
          (fun c hcm => hc c (List.mem_cons_of_mem _ hcm))
  apply key cmds s hwf _ hcmds
  intro e he
  rw [hempty] at he
  cases he

theorem C17_record_format_kept_witness :
    (Shell.initial none none).wf ∧ store (Shell.initial none none) = [] ∧
    tokens_keep_format
      [(calm, argv ["prompt".toList, "save".toList, "work".toList, quoted_foo_space])] ∧
    record_format (run_commands (Shell.initial none none)
      [(calm, argv ["prompt".toList, "save".toList, "work".toList, quoted_foo_space])]) :=
  have hc : tokens_keep_format
      [(calm, argv ["prompt".toList, "save".toList, "work".toList, quoted_foo_space])] := by
    intro c hc
    rw [List.mem_singleton] at hc
    subst hc
    intro _ _
    refine ⟨fun n hn => ?_, fun t ht => ?_⟩
    · cases hn; decide
    · cases ht; decide
  ⟨by decide, by decide, hc,
    C17_record_format_kept _ (Shell.initial none none) (by decide) (by decide) hc⟩

/-- C17 fails as stated: `prompt save a=b x` from the empty store is accepted
and stores the name `a=b`; the line written, `a=b=x`, is read back by
`load_presets` as the name `a` with the text `b=x`. -/
theorem C17_name_with_equals_is_stored :
    store (run_commands (Shell.initial none none)
      [(calm, argv ["prompt".toList, "save".toList, "a=b".toList, "x".toList])])
      = [("a=b".toList, "x".toList)] ∧
    EQUALS ∈ "a=b".toList ∧
    ¬ record_format (run_commands (Shell.initial none none)
      [(calm, argv ["prompt".toList, "save".toList, "a=b".toList, "x".toList])]) ∧
    (run_commands (Shell.initial none none)
      [(calm, argv ["prompt".toList, "save".toList, "a=b".toList, "x".toList])]).presets_file
      = some ("a=b=x".toList ++ [NEWLINE]) ∧
    store (load_presets (Shell.initial (some ("a=b=x".toList ++ [NEWLINE])) none))
      = [("a".toList, "b=x".toList)] := by
  have e : store (run_commands (Shell.initial none none)
      [(calm, argv ["prompt".toList, "save".toList, "a=b".toList, "x".toList])])
      = [("a=b".toList, "x".toList)] := by decide
  refine ⟨e, by decide, ?_, by decide, by decide⟩
  intro h
  have := (h _ (by rw [e]; exact List.mem_singleton.2 rfl)).1
  exact this (by decide)

/-! ## Reading one line of the presets file -/

theorem takeWhile_ne_of_not_mem (d : Char) (l : List Char) (h : d ∉ l) :
    l.takeWhile (fun c => c != d) = l := by
  rw [List.takeWhile_eq_self_iff]
  intro c hc
  simp only [bne_iff_ne, ne_eq]
  exact fun e => h (e ▸ hc)

theorem dropWhile_ne_of_not_mem (d : Char) (l : List Char) (h : d ∉ l) :
    l.dropWhile (fun c => c != d) = [] := by
  rw [List.dropWhile_eq_nil_iff]
  intro c hc
  simp only [bne_iff_ne, ne_eq]
  exact fun e => h (e ▸ hc)

theorem takeWhile_ne_append_of_mem (d : Char) (l m : List Char) (h : d ∈ l) :
    (l ++ m).takeWhile (fun c => c != d) = l.takeWhile (fun c => c != d) := by
  induction l with
  | nil => cases h
  | cons a as ih =>
    by_cases ha : a = d
    · simp [List.takeWhile_cons, ha]
    · have hm : d ∈ as := by
        rcases List.mem_cons.1 h with e | e
        · exact absurd e.symm ha
        · exact e
      simp [List.takeWhile_cons, ha, ih hm]

theorem dropWhile_ne_append_of_mem (d : Char) (l m : List Char) (h : d ∈ l) :
    (l ++ m).dropWhile (fun c => c != d) = l.dropWhile (fun c => c != d) ++ m := by
  induction l with
  | nil => cases h
  | cons a as ih =>
    by_cases ha : a = d
    · simp [List.dropWhile_cons, ha]
    · have hm : d ∈ as := by
        rcases List.mem_cons.1 h with e | e
        · exact absurd e.symm ha
        · exact e
      simp [List.dropWhile_cons, ha, ih hm]

theorem dropWhile_ne_of_mem (d : Char) (l : List Char) (h : d ∈ l) :
    ∃ t, l.dropWhile (fun c => c != d) = d :: t := by
  induction l with
  | nil => cases h
  | cons a as ih =>
    by_cases ha : a = d
    · exact ⟨as, by simp [List.dropWhile_cons, ha]⟩
    · have hm : d ∈ as := by
        rcases List.mem_cons.1 h with e | e
        · exact absurd e.symm ha
        · exact e
      obtain ⟨t, ht⟩ := ih hm
      exact ⟨t, by simp [List.dropWhile_cons, ha, ht]⟩

theorem strtok_nil (d : Char) : strtok [] d = none := rfl

theorem strtok_of_head_ne (d c : Char) (cs : List Char) (h : c ≠ d) :
    strtok (c :: cs) d =
      some ((c :: cs).takeWhile (fun x => x != d),
            ((c :: cs).dropWhile (fun x => x != d)).drop 1) := by
  simp [strtok, h, List.dropWhile_cons]

theorem strtok_all_delims (d : Char) (l : List Char) (h : ∀ c ∈ l, c = d) :
    strtok l d = none := by
  have : l.dropWhile (fun c => c == d) = [] := by
    rw [List.dropWhile_eq_nil_iff]
    intro c hc
    simp [h c hc]
  simp [strtok, this]

theorem takeWhile_ne_append_singleton (d : Char) (l : List Char) (h : d ∉ l) :
    (l ++ [d]).takeWhile (fun c => c != d) = l := by
  induction l with
  | nil => simp
  | cons a as ih =>
    have ha : a ≠ d := fun e => h (e ▸ List.mem_cons_self _ _)
    have hm : d ∉ as := fun e => h (List.mem_cons_of_mem _ e)
    simp [List.takeWhile_cons, ha, ih hm]

theorem cstr_append_newline (l : List Char) (h : NUL ∉ l) :
    cstr (l ++ [NEWLINE]) = l ++ [NEWLINE] := by
  apply cstr_of_no_nul
  intro hm
  rcases List.mem_append.1 hm with e | e
  · exact h e
  · rw [List.mem_singleton] at e
    exact absurd e (by decide)

/-- The record read from a line that holds no `=`: none. -/
theorem line_record_no_equals (c : Char) (cs : List Char)
    (hnul : NUL ∉ c :: cs) (hm : EQUALS ∉ c :: cs) :
    line_record (c :: cs) = none ∧ line_record ((c :: cs) ++ [NEWLINE]) = none := by
  have hc : c ≠ EQUALS := fun e => hm (e ▸ List.mem_cons_self _ _)
  constructor
  · unfold line_record
    rw [cstr_of_no_nul _ hnul, strtok_of_head_ne _ _ _ hc, dropWhile_ne_of_not_mem _ _ hm]
    rfl
  · unfold line_record
    rw [cstr_append_newline _ hnul, List.cons_append, strtok_of_head_ne _ _ _ hc,
      ← List.cons_append]
    have hm2 : EQUALS ∉ (c :: cs) ++ [NEWLINE] := by
      intro h
      rcases List.mem_append.1 h with e | e
      · exact hm e
      · rw [List.mem_singleton] at e
        exact absurd e (by decide)
    rw [dropWhile_ne_of_not_mem _ _ hm2]
    rfl

/-- The record read from a line whose first `=` is followed by the text `t`. -/
theorem line_record_with_equals (c : Char) (cs t : List Char)
    (hnul : NUL ∉ c :: cs) (hnl : NEWLINE ∉ c :: cs) (hc : c ≠ EQUALS)
    (ht : (c :: cs).dropWhile (fun x => x != EQUALS) = EQUALS :: t) :
    line_record (c :: cs) =
      (if t = [] then none
        else some ⟨((c :: cs).takeWhile (fun x => x != EQUALS)).take 63,
          t.take (MAX_PROMPT_LENGTH - 1)⟩) ∧
    line_record ((c :: cs) ++ [NEWLINE]) =
      (if t = [] then none
        else some ⟨((c :: cs).takeWhile (fun x => x != EQUALS)).take 63,
          t.take (MAX_PROMPT_LENGTH - 1)⟩) := by
  have hm : EQUALS ∈ c :: cs := by
    have : EQUALS ∈ (c :: cs).dropWhile (fun x => x != EQUALS) := by
      rw [ht]; exact List.mem_cons_self _ _
    exact (List.dropWhile_sublist _).subset this
  have htnl : NEWLINE ∉ t := by
    intro h
    apply hnl
    have : NEWLINE ∈ (c :: cs).dropWhile (fun x => x != EQUALS) := by
      rw [ht]; exact List.mem_cons_of_mem _ h
    exact (List.dropWhile_sublist _).subset this
  constructor
  · unfold line_record
    rw [cstr_of_no_nul _ hnul, strtok_of_head_ne _ _ _ hc, ht]
    simp only [List.drop_succ_cons, List.drop_zero]
    cases t with
    | nil => rfl
    | cons x xs =>
      have hx : x ≠ NEWLINE := fun e => htnl (e ▸ List.mem_cons_self _ _)
      rw [strtok_of_head_ne _ _ _ hx, takeWhile_ne_of_not_mem _ _ htnl]
      simp [strncpy]
  · unfold line_record
    rw [cstr_append_newline _ hnul, List.cons_append, strtok_of_head_ne _ _ _ hc,
      ← List.cons_append, takeWhile_ne_append_of_mem _ _ _ hm,
      dropWhile_ne_append_of_mem _ _ _ hm, ht]
    simp only [List.cons_append, List.drop_succ_cons, List.drop_zero]
    cases t with
    | nil => rfl
    | cons x xs =>
      have hx : x ≠ NEWLINE := fun e => htnl (e ▸ List.mem_cons_self _ _)
      rw [List.cons_append, strtok_of_head_ne _ _ _ hx, ← List.cons_append,
        takeWhile_ne_append_singleton _ _ htnl]
      simp [strncpy]

/-- On a line without newline or NUL that does not start with `=`, the loop
body keeps exactly `kept_record`, whether or not `fgets` stored the newline
behind the line. -/
theorem line_record_eq_kept (l : List Char)
    (hnul : NUL ∉ l) (hnl : NEWLINE ∉ l) (hhead : l.head? ≠ some EQUALS) :
    line_record l = (kept_record l).map (fun e => ⟨e.1, e.2⟩) ∧
    line_record (l ++ [NEWLINE]) = (kept_record l).map (fun e => ⟨e.1, e.2⟩) := by
  cases l with
  | nil => exact ⟨by decide, by decide⟩
  | cons c cs =>
    have hc : c ≠ EQUALS := fun e => hhead (by rw [e]; rfl)
    by_cases hm : EQUALS ∈ c :: cs
    · obtain ⟨t, ht⟩ := dropWhile_ne_of_mem _ _ hm
      obtain ⟨h1, h2⟩ := line_record_with_equals c cs t hnul hnl hc ht
      have hk : (kept_record (c :: cs)).map (fun e => (⟨e.1, e.2⟩ : PromptPreset)) =
          (if t = [] then none
            else some ⟨((c :: cs).takeWhile (fun x => x != EQUALS)).take 63,
              t.take (MAX_PROMPT_LENGTH - 1)⟩) := by
        unfold kept_record spec_record
        rw [if_pos hm, ht]
        simp only [List.drop_succ_cons, List.drop_zero]
        by_cases htn : t = []
        · rw [if_pos htn, if_pos htn]; rfl
        · rw [if_neg htn, if_neg htn]; rfl
      rw [h1, h2, hk]
      exact ⟨rfl, rfl⟩
    · obtain ⟨h1, h2⟩ := line_record_no_equals c cs hnul hm
      have hk : kept_record (c :: cs) = none := by
        unfold kept_record spec_record
        rw [if_neg hm]
      rw [h1, h2, hk]
      exact ⟨rfl, rfl⟩

/-! ## The loop of `load_presets`, line by line -/

theorem load_all_nil (ps : List PromptPreset) (c : Nat) : load_all [] ps c = (ps, c) := rfl

theorem load_all_full (file : List Char) (ps : List PromptPreset) (c : Nat)
    (hc : ¬ c < MAX_PRESETS) : load_all file ps c = (ps, c) := by
  cases file with
  | nil => rfl
  | cons x xs =>
    unfold load_all
    rw [List.length_cons, load_presets_loop_step]
    simp only [fgets]
    rw [if_neg hc]

theorem load_all_step (file buf rest : List Char) (ps : List PromptPreset) (c : Nat)
    (hf : fgets (MAX_PROMPT_LENGTH + 64) file = some (buf, rest)) (hc : c < MAX_PRESETS) :
    load_all file ps c =
      match line_record buf with
      | none => load_all rest ps c
      | some r => load_all rest (ps.set c r) (c + 1) := by
  have hlt := fgets_rest_lt _ (by decide) file buf rest hf
  obtain ⟨n, hn⟩ : ∃ n, file.length = n + 1 := ⟨file.length - 1, by omega⟩
  have hle : rest.length ≤ n := by omega
  unfold load_all line_record
  rw [hn, load_presets_loop_step, hf]
  simp only []
  rw [if_pos hc]
  cases strtok (cstr buf) EQUALS with
  | none => exact load_presets_loop_fuel n rest ps c hle
  | some na =>
    obtain ⟨name, after⟩ := na
    simp only []
    cases strtok after NEWLINE with
    | none => exact load_presets_loop_fuel n rest ps c hle
    | some pr =>
      obtain ⟨prompt, x⟩ := pr
      exact load_presets_loop_fuel n rest _ _ hle

theorem fgets_read_line (room : Nat) (l rest : List Char)
    (hnl : NEWLINE ∉ l) (hlen : l.length < room) :
    fgets_read room (l ++ NEWLINE :: rest) = (l ++ [NEWLINE], rest) := by
  induction l generalizing room with
  | nil =>
    obtain ⟨k, rfl⟩ : ∃ k, room = k + 1 := ⟨room - 1, by simp at hlen; omega⟩
    simp [fgets_read]
  | cons a as ih =>
    obtain ⟨k, rfl⟩ : ∃ k, room = k + 1 := ⟨room - 1, by simp at hlen; omega⟩
    have ha : a ≠ NEWLINE := fun e => hnl (e ▸ List.mem_cons_self _ _)
    have hm : NEWLINE ∉ as := fun e => hnl (List.mem_cons_of_mem _ e)
    rw [List.cons_append]
    unfold fgets_read
    rw [if_neg ha, ih k hm (by simpa using hlen)]
    rfl

theorem fgets_read_exact (l rest : List Char) (hnl : NEWLINE ∉ l) :
    fgets_read l.length (l ++ rest) = (l, rest) := by
  induction l with
  | nil => simp [fgets_read]
  | cons a as ih =>
    have ha : a ≠ NEWLINE := fun e => hnl (e ▸ List.mem_cons_self _ _)
    have hm : NEWLINE ∉ as := fun e => hnl (List.mem_cons_of_mem _ e)
    rw [List.cons_append, List.length_cons]
    unfold fgets_read
    rw [if_neg ha, ih hm]

theorem fgets_short_line (l rest : List Char) (hnl : NEWLINE ∉ l)
    (hlen : l.length < MAX_PROMPT_LENGTH + 64 - 1) :
    fgets (MAX_PROMPT_LENGTH + 64) (l ++ NEWLINE :: rest) = some (l ++ [NEWLINE], rest) := by
  have h := fgets_read_line (MAX_PROMPT_LENGTH + 64 - 1) l rest hnl hlen
  cases l with
  | nil => simpa [fgets] using h
  | cons a as => simpa [fgets] using h

theorem fgets_long_line (a : Char) (as rest : List Char) (hnl : NEWLINE ∉ a :: as)
    (hlen : (a :: as).length = MAX_PROMPT_LENGTH + 64 - 1) :
    fgets (MAX_PROMPT_LENGTH + 64) (a :: as ++ rest) = some (a :: as, rest) := by
  have h := fgets_read_exact (a :: as) rest hnl
  rw [hlen] at h
  simpa [fgets] using h

theorem fgets_last_line (a : Char) (as : List Char) (hnl : NEWLINE ∉ a :: as)
    (hlen : (a :: as).length ≤ MAX_PROMPT_LENGTH + 64 - 1) :
    fgets (MAX_PROMPT_LENGTH + 64) (a :: as) = some (a :: as, []) := by
  have h := fgets_read_all (MAX_PROMPT_LENGTH + 64 - 1) (a :: as) hnl hlen
  simpa [fgets] using h

/-- A newline left over by a line that filled the buffer is read as a line of its
own and skipped. -/
theorem load_all_newline (rest : List Char) (ps : List PromptPreset) (c : Nat) :
    load_all (NEWLINE :: rest) ps c = load_all rest ps c := by
  by_cases hc : c < MAX_PRESETS
  · have hf : fgets (MAX_PROMPT_LENGTH + 64) (NEWLINE :: rest) = some ([NEWLINE], rest) :=
      fgets_short_line [] rest (by simp) (by decide)
    rw [load_all_step _ _ _ ps c hf hc]
    have : line_record [NEWLINE] = none := by decide
    rw [this]
  · rw [load_all_full _ _ _ hc, load_all_full _ _ _ hc]

/-- One line of the file followed by its newline: the loop keeps `kept_record`
of the line and goes on with the rest of the file. -/
theorem load_all_line (l rest : List Char) (ps : List PromptPreset) (c : Nat)
    (hnul : NUL ∉ l) (hnl : NEWLINE ∉ l) (hhead : l.head? ≠ some EQUALS)
    (hlen : l.length ≤ MAX_PROMPT_LENGTH + 64 - 1) (hc : c < MAX_PRESETS) :
    load_all (l ++ NEWLINE :: rest) ps c =
      match kept_record l with
      | none => load_all rest ps c
      | some e => load_all rest (ps.set c ⟨e.1, e.2⟩) (c + 1) := by
  obtain ⟨h1, h2⟩ := line_record_eq_kept l hnul hnl hhead
  by_cases hlt : l.length < MAX_PROMPT_LENGTH + 64 - 1
  · rw [load_all_step _ _ _ ps c (fgets_short_line l rest hnl hlt) hc, h2]
    cases kept_record l <;> rfl
  · have heq : l.length = MAX_PROMPT_LENGTH + 64 - 1 := by omega
    cases l with
    | nil => exact absurd heq (by decide)
    | cons a as =>
      rw [load_all_step _ _ _ ps c (fgets_long_line a as _ hnl heq) hc, h1]
      cases kept_record (a :: as) with
      | none => exact load_all_newline rest ps c
      | some e => exact load_all_newline rest _ _

/-- The last line of a file that does not end in a newline. -/
theorem load_all_last_line (l : List Char) (ps : List PromptPreset) (c : Nat)
    (hnul : NUL ∉ l) (hnl : NEWLINE ∉ l) (hhead : l.head? ≠ some EQUALS)
    (hlen : l.length ≤ MAX_PROMPT_LENGTH + 64 - 1) (hc : c < MAX_PRESETS) :
    load_all l ps c =
      match kept_record l with
      | none => (ps, c)
      | some e => (ps.set c ⟨e.1, e.2⟩, c + 1) := by
  obtain ⟨h1, _⟩ := line_record_eq_kept l hnul hnl hhead
  cases l with
  | nil => rfl
  | cons a as =>
    rw [load_all_step _ _ _ ps c (fgets_last_line a as hnl hlen) hc, h1]
    cases kept_record (a :: as) <;> rfl

theorem splitOn_newline (file : List Char) :
    file.splitOn NEWLINE = file.takeWhile (fun c => c != NEWLINE) ::
      (match file.dropWhile (fun c => c != NEWLINE) with
        | [] => []
        | _ :: r => r.splitOn NEWLINE) := by
  have h := splitOnP_eq_takeWhile_cons (fun c => c == NEWLINE) file
  exact h

theorem dropWhile_ne_head (d : Char) (l : List Char) (x : Char) (r : List Char)
    (h : l.dropWhile (fun c => c != d) = x :: r) : x = d := by
  have := List.head_dropWhile_not (fun c => c != d) l (by rw [h]; simp)
  simp only [h, List.head_cons, bne_iff_ne, ne_eq, Bool.not_eq_true, bne_eq_false_iff_eq] at this
  simpa using this

theorem takeWhile_ne_not_mem (d : Char) (l : List Char) :
    d ∉ l.takeWhile (fun c => c != d) := by
  intro h
  have := List.mem_takeWhile_imp h
  simp at this

theorem kept_record_nil : kept_record [] = none := by decide

/-- The store after the loop of `load_presets` has run over a file whose lines
have at most 319 bytes and do not start with `=`: the records kept of the
lines are appended in file order while there is room. -/
theorem store_load_all (n : Nat) :
    ∀ (file : List Char) (s : Shell), file.length ≤ n → NUL ∉ file →
      (∀ line ∈ file.splitOn NEWLINE,
        line.length ≤ MAX_PROMPT_LENGTH + 64 - 1 ∧ line.head? ≠ some EQUALS) →
      s.wf →
      store { s with
        presets := (load_all file s.presets s.preset_count).1
        preset_count := (load_all file s.presets s.preset_count).2 }
      = store s ++
        ((file.splitOn NEWLINE).filterMap kept_record).take (MAX_PRESETS - s.preset_count) := by
  induction n with
  | zero =>
    intro file s hlen _ _ _
    have : file = [] := List.length_eq_zero.1 (Nat.le_zero.1 hlen)
    subst this
    have e : ([] : List Char).splitOn NEWLINE = [[]] := List.splitOn_nil _
    rw [e, load_all_nil]
    simp [kept_record_nil]
  | succ n ih =>
    intro file s hlen hnul hlines hwf
    by_cases hc : s.preset_count < MAX_PRESETS
    swap
    · rw [load_all_full _ _ _ hc]
      have : MAX_PRESETS - s.preset_count = 0 := by omega
      rw [this]
      simp
    have hsplit := splitOn_newline file
    have hfile := List.takeWhile_append_dropWhile (fun c => c != NEWLINE) file
    have hl := hlines (file.takeWhile (fun c => c != NEWLINE)) (by rw [hsplit]; simp)
    have hlnl := takeWhile_ne_not_mem NEWLINE file
    have hlnul : NUL ∉ file.takeWhile (fun c => c != NEWLINE) :=
      fun h => hnul ((List.takeWhile_sublist _).subset h)
    have hroom : MAX_PRESETS - s.preset_count = (MAX_PRESETS - (s.preset_count + 1)) + 1 := by
      omega
    have hslot : s.preset_count < s.presets.length := by rw [hwf.1]; exact hc
    cases hd : file.dropWhile (fun c => c != NEWLINE) with
    | nil =>
      rw [hd, List.append_nil] at hfile
      rw [hsplit, hd]
      simp only [List.filterMap_cons, List.filterMap_nil]
      rw [hfile] at hl hlnl
      have hstep := load_all_last_line file s.presets s.preset_count hnul hlnl hl.2 hl.1 hc
      rw [hstep, hfile]
      cases hk : kept_record file with
      | none => simp
      | some e =>
        simp only []
        rw [store_after_append s _ hslot, hroom]
        simp
    | cons x r =>
      have hx : x = NEWLINE := dropWhile_ne_head _ _ _ _ hd
      subst hx
      rw [hd] at hfile
      have hrlen : r.length ≤ n := by
        have := congrArg List.length hfile
        simp only [List.length_append, List.length_cons] at this
        omega
      have hrnul : NUL ∉ r := by
        intro h
        apply hnul
        rw [← hfile]
        exact List.mem_append_right _ (List.mem_cons_of_mem _ h)
      have hrlines : ∀ line ∈ r.splitOn NEWLINE,
          line.length ≤ MAX_PROMPT_LENGTH + 64 - 1 ∧ line.head? ≠ some EQUALS := by
        intro line hline
        apply hlines
        rw [hsplit, hd]
        exact List.mem_cons_of_mem _ hline
      have hstep := load_all_line (file.takeWhile (fun c => c != NEWLINE)) r
        s.presets s.preset_count hlnul hlnl hl.2 hl.1 hc
      rw [hfile] at hstep
      rw [hstep, hsplit, hd]
      simp only [List.filterMap_cons]
      cases hk : kept_record (file.takeWhile (fun c => c != NEWLINE)) with
      | none =>
        simp only []
        exact ih r s hrlen hrnul hrlines hwf
      | some e =>
        simp only []
        have hwf2 : Shell.wf { s with
            presets := s.presets.set s.preset_count ⟨e.1, e.2⟩
            preset_count := s.preset_count + 1 } := by
          refine ⟨?_, ?_⟩
          · simp only [List.length_set]
            exact hwf.1
          · simp only []
            omega
        have h2 := ih r { s with
            presets := s.presets.set s.preset_count ⟨e.1, e.2⟩
            preset_count := s.preset_count + 1 } hrlen hrnul hrlines hwf2
        simp only [] at h2
        rw [store_after_append s _ hslot] at h2
        rw [hroom, List.take_succ_cons, h2]
        simp

theorem store_load_presets (s : Shell) (contents : List Char)
    (hfile : s.presets_file = some contents) (hwf : s.wf) (hnul : NUL ∉ contents)
    (hlines : ∀ line ∈ contents.splitOn NEWLINE,
      line.length ≤ MAX_PROMPT_LENGTH + 64 - 1 ∧ line.head? ≠ some EQUALS) :
    store (load_presets s) = store s ++
      ((contents.splitOn NEWLINE).filterMap kept_record).take
        (MAX_PRESETS - s.preset_count) := by
  have h := store_load_all contents.length contents s (Nat.le_refl _) hnul hlines hwf
  unfold load_presets
  rw [hfile]
  exact h

/-- C15 (as amended). For a presets file without NUL bytes in which no line is
longer than 319 bytes or starts with `=`, `load_presets` appends to the store,
in file order and while the store holds fewer than `MAX_PRESETS` = 50 entries,
the record kept of each line: when the line contains `=` and the text after the
first `=` (up to the newline) is not empty, the name is the first 63 bytes of
what stands before the first `=` and the text the first 255 bytes of what
stands after it; a line without `=`, or with nothing after it, is skipped. -/
theorem C15_load_presets_records (s : Shell) (contents : List Char)
    (hfile : s.presets_file = some contents) (hwf : s.wf) (hnul : NUL ∉ contents)
    (hlines : ∀ line ∈ contents.splitOn NEWLINE,
      line.length ≤ MAX_PROMPT_LENGTH + 64 - 1 ∧ line.head? ≠ some EQUALS) :
    store (load_presets s) = store s ++
      ((contents.splitOn NEWLINE).filterMap kept_record).take
        (MAX_PRESETS - s.preset_count) ∧
    (∀ line : Str, kept_record line =
      if EQUALS ∈ line ∧ (line.dropWhile (fun c => c != EQUALS)).drop 1 ≠ [] then
        some ((line.takeWhile (fun c => c != EQUALS)).take 63,
          ((line.dropWhile (fun c => c != EQUALS)).drop 1).take 255)
      else none) := by
  refine ⟨store_load_presets s contents hfile hwf hnul hlines, ?_⟩
  intro line
  unfold kept_record spec_record
  by_cases hm : EQUALS ∈ line
  · rw [if_pos hm]
    simp only []
    by_cases ht : (line.dropWhile (fun c => c != EQUALS)).drop 1 = []
    · rw [if_pos ht, if_neg (fun h => h.2 ht)]
    · rw [if_neg ht, if_pos ⟨hm, ht⟩]
      rfl
  · rw [if_neg hm, if_neg (fun h => hm h.1)]

theorem C15_load_presets_records_witness :
    (Shell.initial (some sample_file) none).presets_file = some sample_file ∧
    (Shell.initial (some sample_file) none).wf ∧ NUL ∉ sample_file ∧
    (∀ line ∈ sample_file.splitOn NEWLINE,
      line.length ≤ MAX_PROMPT_LENGTH + 64 - 1 ∧ line.head? ≠ some EQUALS) ∧
    store (load_presets (Shell.initial (some sample_file) none))
      = [("a".toList, "b".toList), ("c".toList, "d".toList)] :=
  ⟨rfl, by decide, by decide, by decide,
    (C15_load_presets_records (Shell.initial (some sample_file) none) sample_file
      rfl (by decide) (by decide) (by decide)).1.trans (by decide)⟩

/-- C15 fails as stated: the line `q=` contains `=`, so the claim makes it the
record with name `q` and empty text, but `load_presets` skips it; and a name of
64 bytes is not kept as it stands but cut to 63. -/
theorem C15_line_without_text_is_skipped :
    spec_load ("q=".toList ++ [NEWLINE]) MAX_PRESETS = [("q".toList, [])] ∧
    store (load_presets (Shell.initial (some ("q=".toList ++ [NEWLINE])) none)) = [] ∧
    store (load_presets (Shell.initial (some ("q=".toList ++ [NEWLINE])) none))
      ≠ spec_load ("q=".toList ++ [NEWLINE]) MAX_PRESETS ∧
    store (load_presets (Shell.initial (some (long_name ++ "=x".toList)) none))
      = [(List.replicate 63 'a', "x".toList)] ∧
    spec_load (long_name ++ "=x".toList) MAX_PRESETS = [(long_name, "x".toList)] := by
  refine ⟨by decide, by decide, by decide, by decide, by decide⟩

/-! ## Round trip of the presets file -/

theorem save_presets_loop_eq (ps : List PromptPreset) (todo : Nat) :
    ∀ i, i + todo ≤ ps.length →
      save_presets_loop ps i todo =
        ((((ps.drop i).take todo).map (fun p => (p.name, p.prompt))).map record_line).flatten := by
  induction todo with
  | zero => intro i _; simp [save_presets_loop]
  | succ n ih =>
    intro i hi
    have hlt : i < ps.length := by omega
    rw [save_presets_loop, ih (i + 1) (by omega), List.drop_eq_getElem_cons hlt]
    have hs : slot ps i = ps[i] := by
      have := slot_of_lt ps i hlt
      rw [List.getElem?_eq_getElem hlt] at this
      exact (Option.some.inj this).symm
    rw [List.take_succ_cons, List.map_cons, List.map_cons, List.flatten_cons, hs]
    rfl

theorem presets_file_eq (s : Shell) (h : s.preset_count ≤ s.presets.length) :
    save_presets_loop s.presets 0 s.preset_count = ((store s).map record_line).flatten := by
  rw [save_presets_loop_eq s.presets s.preset_count 0 (by omega)]
  rfl

theorem takeWhile_ne_append_cons (d : Char) (l m : List Char) (h : d ∉ l) :
    (l ++ d :: m).takeWhile (fun c => c != d) = l := by
  induction l with
  | nil => simp
  | cons a as ih =>
    have ha : a ≠ d := fun e => h (e ▸ List.mem_cons_self _ _)
    have hm : d ∉ as := fun e => h (List.mem_cons_of_mem _ e)
    simp [List.takeWhile_cons, ha, ih hm]

theorem dropWhile_ne_append_cons (d : Char) (l m : List Char) (h : d ∉ l) :
    (l ++ d :: m).dropWhile (fun c => c != d) = d :: m := by
  induction l with
  | nil => simp
  | cons a as ih =>
    have ha : a ≠ d := fun e => h (e ▸ List.mem_cons_self _ _)
    have hm : d ∉ as := fun e => h (List.mem_cons_of_mem _ e)
    simp [List.dropWhile_cons, ha, ih hm]

theorem splitOn_record_lines (es : List (Str × Str))
    (h : ∀ e ∈ es, NEWLINE ∉ e.1 ∧ NEWLINE ∉ e.2) :
    ((es.map record_line).flatten).splitOn NEWLINE =
      es.map (fun e : Str × Str => e.1 ++ [EQUALS] ++ e.2) ++ [[]] := by
  induction es with
  | nil => exact List.splitOn_nil _
  | cons e es ih =>
    obtain ⟨h1, h2⟩ := h e (List.mem_cons_self _ _)
    have hl : NEWLINE ∉ e.1 ++ [EQUALS] ++ e.2 := by
      intro hm
      simp only [List.mem_append, List.mem_singleton] at hm
      rcases hm with (hm | hm) | hm
      · exact h1 hm
      · exact absurd hm (by decide)
      · exact h2 hm
    have hfile : ((e :: es).map record_line).flatten =
        (e.1 ++ [EQUALS] ++ e.2) ++ NEWLINE :: (es.map record_line).flatten := by
      simp [record_line]
    rw [hfile, splitOn_newline, takeWhile_ne_append_cons _ _ _ hl,
      dropWhile_ne_append_cons _ _ _ hl]
    simp only []
    rw [ih (fun e he => h e (List.mem_cons_of_mem _ he))]
    rfl

theorem kept_record_of_storable (e : Str × Str) (h : storable e) :
    kept_record (e.1 ++ [EQUALS] ++ e.2) = some e := by
  obtain ⟨_, h2, h3, _, _, h6, h7, _, _⟩ := h
  have hm : EQUALS ∈ e.1 ++ [EQUALS] ++ e.2 := by simp
  unfold kept_record spec_record
  rw [if_pos hm, List.append_assoc, List.singleton_append,
    takeWhile_ne_append_cons _ _ _ h3, dropWhile_ne_append_cons _ _ _ h3]
  simp only [List.drop_succ_cons, List.drop_zero]
  rw [if_neg h6, List.take_of_length_le h2, List.take_of_length_le h7]

theorem filterMap_kept_record_lines (es : List (Str × Str)) (h : ∀ e ∈ es, storable e) :
    (es.map (fun e : Str × Str => e.1 ++ [EQUALS] ++ e.2) ++ [[]]).filterMap kept_record
      = es := by
  induction es with
  | nil => simp [kept_record_nil]
  | cons e es ih =>
    rw [List.map_cons, List.cons_append, List.filterMap_cons,
      kept_record_of_storable e (h e (List.mem_cons_self _ _))]
    simp only []
    rw [ih (fun e he => h e (List.mem_cons_of_mem _ he))]

theorem record_lines_no_nul (es : List (Str × Str)) (h : ∀ e ∈ es, storable e) :
    NUL ∉ (es.map record_line).flatten := by
  intro hm
  rw [List.mem_flatten] at hm
  obtain ⟨l, hl, hml⟩ := hm
  rw [List.mem_map] at hl
  obtain ⟨e, he, rfl⟩ := hl
  obtain ⟨_, _, _, _, h5, _, _, _, h9⟩ := h e he
  simp only [record_line, List.mem_append, List.mem_singleton] at hml
  rcases hml with ((hml | hml) | hml) | hml
  · exact h5 hml
  · exact absurd hml (by decide)
  · exact h9 hml
  · exact absurd hml (by decide)

theorem record_lines_fit (es : List (Str × Str)) (h : ∀ e ∈ es, storable e) :
    ∀ line ∈ (es.map (fun e : Str × Str => e.1 ++ [EQUALS] ++ e.2) ++ [[]]),
      line.length ≤ MAX_PROMPT_LENGTH + 64 - 1 ∧ line.head? ≠ some EQUALS := by
  intro line hline
  rcases List.mem_append.1 hline with hl | hl
  · rw [List.mem_map] at hl
    obtain ⟨e, he, rfl⟩ := hl
    obtain ⟨h1, h2, h3, _, _, _, h7, _, _⟩ := h e he
    constructor
    · simp only [List.length_append, List.length_singleton, MAX_PROMPT_LENGTH] at h7 ⊢
      omega
    · cases hn : e.1 with
      | nil => exact absurd hn h1
      | cons a as =>
        intro hh
        simp only [List.cons_append, List.head?_cons, Option.some.injEq] at hh
        apply h3
        rw [hn, hh]
        exact List.mem_cons_self _ _
  · rw [List.mem_singleton] at hl
    subst hl
    exact ⟨by decide, by decide⟩

/-- C16 (as amended). For every store of at most 50 presets whose names are
non-empty, have at most 63 bytes and contain no `=` or newline, and whose texts
are non-empty, have at most 255 bytes and contain no newline (names and texts
being C strings, without NUL), `load_presets`, run from the empty store on the
file that `save_presets` has written, gives back the same sequence of
(name, text) pairs in the same order. -/
theorem C16_presets_round_trip (w : World) (s : Shell) (last_prompt_file : Option (List Char))
    (hw : w.presets_writable = true) (hwf : s.wf) (hst : ∀ e ∈ store s, storable e) :
    store (load_presets (Shell.initial (save_presets w s).presets_file last_prompt_file))
      = store s := by
  have hl : s.preset_count ≤ s.presets.length := by rw [hwf.1]; exact hwf.2
  have hfile : (save_presets w s).presets_file = some ((store s).map record_line).flatten := by
    simp only [save_presets, hw, if_true]
    rw [presets_file_eq s hl]
  have hsplit := splitOn_record_lines (store s)
    (fun e he => ⟨(hst e he).2.2.2.1, (hst e he).2.2.2.2.2.2.2.1⟩)
  rw [hfile]
  rw [store_load_presets (Shell.initial (some ((store s).map record_line).flatten)
      last_prompt_file) _ rfl (wf_initial _ _) (record_lines_no_nul _ hst)
      (by rw [hsplit]; exact record_lines_fit _ hst)]
  rw [hsplit, filterMap_kept_record_lines _ hst]
  have h0 : store (Shell.initial (some ((store s).map record_line).flatten)
      last_prompt_file) = [] := rfl
  rw [h0, List.nil_append]
  apply List.take_of_length_le
  rw [store_length s hl]
  have : (Shell.initial (some ((store s).map record_line).flatten)
      last_prompt_file).preset_count = 0 := rfl
  rw [this]
  exact hwf.2

theorem C16_presets_round_trip_witness :
    calm.presets_writable = true ∧ three_presets.wf ∧
    (∀ e ∈ store three_presets, storable e) ∧
    store (load_presets (Shell.initial (save_presets calm three_presets).presets_file none))
      = store three_presets :=
  have hst : ∀ e ∈ store three_presets, storable e := by
    have e : store three_presets =
        [("a".toList, "x".toList), ("b".toList, "y".toList), ("c".toList, "z".toList)] := by
      decide
    rw [e]
    intro p hp
    simp only [List.mem_cons, List.mem_singleton, List.not_mem_nil, or_false] at hp
    rcases hp with rfl | rfl | rfl <;>
      exact ⟨by decide, by decide, by decide, by decide, by decide, by decide, by decide,
        by decide, by decide⟩
  ⟨rfl, by decide, hst, C16_presets_round_trip calm three_presets none rfl (by decide) hst⟩

/-- C16 fails as stated: the store that holds the one preset `n` with an empty
text meets every condition of the claim, `save_presets` writes the line `n=`
for it, and `load_presets` skips that line. -/
theorem C16_empty_text_is_lost :
    store empty_text_preset = [("n".toList, [])] ∧
    empty_text_preset.preset_count ≤ MAX_PRESETS ∧
    (∀ e ∈ store empty_text_preset,
      e.1 ≠ [] ∧ e.1.length ≤ 63 ∧ EQUALS ∉ e.1 ∧ NEWLINE ∉ e.1 ∧
      e.2.length ≤ 255 ∧ NEWLINE ∉ e.2) ∧
    (save_presets calm empty_text_preset).presets_file = some ("n=".toList ++ [NEWLINE]) ∧
    store (load_presets
      (Shell.initial (save_presets calm empty_text_preset).presets_file none)) = [] ∧
    store (load_presets
      (Shell.initial (save_presets calm empty_text_preset).presets_file none))
      ≠ store empty_text_preset := by
  refine ⟨by decide, by decide, by decide, by decide, by decide, by decide⟩

end Sheller
